import Mathlib

/-!
Verification of the pyquil device/ISA core against its source.

Python strings produced and consumed by the edge-key helpers are modelled as
`List Char`.  Python float literals appearing in the code (`0.0`, `np.pi`, …)
are modelled as their exact rational values (every IEEE-754 double is a
rational), so `==` comparisons against `0.0` are exact, as in the source.
-/

namespace PyQuilSpec

/-! ### Decimal strings: Python `str` on a non-negative int, and `int` on a digit string -/

/-- The decimal digit characters of `n`, most significant first; `fuel` bounds
the recursion depth and `n` itself always suffices.  (Structural recursion on
the fuel keeps the definition kernel-reducible.) -/
def natDigitsAux : ℕ → ℕ → List Char
  | _, 0 => []
  | 0, _ + 1 => []
  | fuel + 1, n + 1 =>
    natDigitsAux fuel ((n + 1) / 10) ++ [Nat.digitChar ((n + 1) % 10)]

/-- `str(n)` for a non-negative Python int: decimal digits, most significant first. -/
def natDigits (n : ℕ) : List Char :=
  if n = 0 then ['0'] else natDigitsAux n n

theorem natDigitsAux_eq_digits :
    ∀ (fuel n : ℕ), n ≤ fuel →
      natDigitsAux fuel n = ((Nat.digits 10 n).map Nat.digitChar).reverse
  | _, 0, _ => by simp [natDigitsAux]
  | 0, n + 1, h => absurd h (by omega)
  | fuel + 1, n + 1, h => by
    have hdiv : (n + 1) / 10 ≤ fuel := by
      have := Nat.div_lt_self (Nat.succ_pos n) (by norm_num : 1 < 10)
      omega
    rw [natDigitsAux, natDigitsAux_eq_digits fuel ((n + 1) / 10) hdiv,
      Nat.digits_def' (by norm_num : (1:ℕ) < 10) (Nat.succ_pos n)]
    simp

/-- For positive `n`, `natDigits n` is the reversed `Nat.digits` rendering. -/
theorem natDigits_eq_digits {n : ℕ} (h : n ≠ 0) :
    natDigits n = ((Nat.digits 10 n).map Nat.digitChar).reverse := by
  unfold natDigits
  rw [if_neg h, natDigitsAux_eq_digits n n le_rfl]

/-- The numeric value of a decimal digit character, if it is one. -/
def charDigit? (c : Char) : Option ℕ :=
  if '0' ≤ c ∧ c ≤ '9' then some (c.toNat - '0'.toNat) else none

/-- Apply a fallible function to every list element, failing if any application
fails (a Python list comprehension over a raising function). -/
def mapOrFail {α β : Type} (f : α → Option β) : List α → Option (List β)
  | [] => some []
  | x :: xs =>
    match f x, mapOrFail f xs with
    | some y, some ys => some (y :: ys)
    | _, _ => none

/-- `int(s)` on a plain digit string; `none` where Python `int` raises.
(Signs and whitespace never occur in edge keys built from qubit ids.) -/
def parseNat (s : List Char) : Option ℕ :=
  if s = [] then none
  else (mapOrFail charDigit? s).map (fun ds => Nat.ofDigits 10 ds.reverse)

/-- Python `s.split("-")`. -/
def splitOnDash : List Char → List (List Char)
  | [] => [[]]
  | c :: cs =>
    if c = '-' then [] :: splitOnDash cs
    else
      match splitOnDash cs with
      | [] => [[c]]
      | g :: gs => (c :: g) :: gs

theorem charDigit?_digitChar {d : ℕ} (hd : d < 10) :
    charDigit? (Nat.digitChar d) = some d := by
  interval_cases d <;> decide

theorem mapOrFail_eq_map_of_forall {α β : Type} (f : α → Option β) (g : α → β) :
    ∀ (l : List α), (∀ x ∈ l, f x = some (g x)) → mapOrFail f l = some (l.map g)
  | [], _ => rfl
  | x :: xs, h => by
    have hx : f x = some (g x) := h x (List.mem_cons_self x xs)
    have hxs : mapOrFail f xs = some (xs.map g) :=
      mapOrFail_eq_map_of_forall f g xs (fun y hy => h y (List.mem_cons_of_mem x hy))
    simp [mapOrFail, hx, hxs, List.map_cons]

theorem natDigits_ne_nil (n : ℕ) : natDigits n ≠ [] := by
  by_cases h : n = 0
  · simp [natDigits, h]
  · rw [natDigits_eq_digits h]
    intro hcontra
    have hne : Nat.digits 10 n ≠ [] := Nat.digits_ne_nil_iff_ne_zero.mpr h
    simpa [hne] using congrArg List.length hcontra

theorem map_charVal_map_digitChar :
    ∀ (l : List ℕ), (∀ d ∈ l, d < 10) →
      (l.map Nat.digitChar).map (fun c => c.toNat - '0'.toNat) = l := by
  intro l hl
  rw [List.map_map]
  conv_rhs => rw [← List.map_id l]
  apply List.map_congr_left
  intro d hd
  have := hl d hd
  simp only [Function.comp_apply, id_eq]
  interval_cases d <;> decide

/-- Parsing the decimal rendering of `n` recovers `n` (Python `int(str(n)) == n`). -/
theorem parseNat_natDigits (n : ℕ) : parseNat (natDigits n) = some n := by
  by_cases h : n = 0
  · subst h; decide
  · have hmap :
        mapOrFail charDigit? (natDigits n) =
          some (((Nat.digits 10 n).map Nat.digitChar).reverse.map
            (fun c => c.toNat - '0'.toNat)) := by
      rw [natDigits_eq_digits h]
      apply mapOrFail_eq_map_of_forall
      intro c hc
      simp only [List.mem_reverse, List.mem_map] at hc
      obtain ⟨d, hd, rfl⟩ := hc
      have hlt : d < 10 := Nat.digits_lt_base (by norm_num) hd
      rw [charDigit?_digitChar hlt]
      interval_cases d <;> decide
    have hval :
        ((Nat.digits 10 n).map Nat.digitChar).reverse.map
            (fun c => c.toNat - '0'.toNat) = (Nat.digits 10 n).reverse := by
      rw [List.map_reverse]
      rw [map_charVal_map_digitChar]
      intro d hd
      exact Nat.digits_lt_base (by norm_num) hd
    unfold parseNat
    rw [if_neg (natDigits_ne_nil n), hmap, Option.map_some', hval,
      List.reverse_reverse, Nat.ofDigits_digits]

theorem natDigits_injective : Function.Injective natDigits := by
  intro m n h
  have := parseNat_natDigits m
  rw [h, parseNat_natDigits n] at this
  exact (Option.some_injective _ this).symm

/-- Decimal digits of a non-negative int never contain the separator `'-'`. -/
theorem dash_not_mem_natDigits (n : ℕ) : '-' ∉ natDigits n := by
  by_cases h : n = 0
  · simp [natDigits, h]
  · rw [natDigits_eq_digits h]
    simp only [List.mem_reverse, List.mem_map]
    rintro ⟨d, hd, hchar⟩
    have hlt : d < 10 := Nat.digits_lt_base (by norm_num) hd
    interval_cases d <;> exact absurd hchar (by decide)

theorem splitOnDash_append {a b : List Char} (ha : '-' ∉ a) :
    splitOnDash (a ++ '-' :: b) = a :: splitOnDash b := by
  induction a with
  | nil => simp [splitOnDash]
  | cons c cs ih =>
    have hc : c ≠ '-' := fun hcontra => ha (hcontra ▸ List.mem_cons_self c cs)
    have hcs : '-' ∉ cs := fun hmem => ha (List.mem_cons_of_mem c hmem)
    have hrec := ih hcs
    simp only [List.cons_append, splitOnDash, if_neg hc]
    rw [show cs.append ('-' :: b) = cs ++ '-' :: b from rfl, hrec]

/-! ### Data model, from `pyquil/contrib/rpcq.py` -/

/-- A gate parameter or argument: `Union[str, float]` in the source.  Floats are
modelled by their exact rational values. -/
inductive Param where
  | num (q : ℚ)
  | sym (s : String)
  deriving DecidableEq, Repr

/-- `GateInfo`: `operator`, `parameters`, `arguments`, plus optional
fidelity/duration from the `Operator` base class. -/
structure GateInfo where
  operator : String
  parameters : List Param
  arguments : List Param
  fidelity : Option ℚ := none
  duration : Option ℚ := none
  deriving DecidableEq, Repr

/-- `MeasureInfo`: `operator`, `qubit`, `target`, plus optional fidelity/duration. -/
structure MeasureInfo where
  operator : String
  qubit : Option Param
  target : Option Param
  fidelity : Option ℚ := none
  duration : Option ℚ := none
  deriving DecidableEq, Repr

/-- `Union[MeasureInfo, GateInfo]`, the element type of `Qubit.gates`. -/
inductive ISAGate where
  | gate (g : GateInfo)
  | measure (m : MeasureInfo)
  deriving DecidableEq, Repr

/-- The `.operator` attribute, shared by both variants. -/
def ISAGate.operator : ISAGate → String
  | .gate g => g.operator
  | .measure m => m.operator

structure Qubit where
  id : ℕ
  dead : Bool := false
  gates : List ISAGate := []
  deriving DecidableEq, Repr

structure Edge where
  ids : List ℕ
  dead : Bool := false
  gates : List GateInfo := []
  deriving DecidableEq, Repr

/-- `CompilerISA`: the `"1Q"` and `"2Q"` string-keyed mappings, modelled as
insertion-ordered association lists (Python dicts preserve insertion order). -/
structure CompilerISA where
  qubits : List (List Char × Qubit) := []
  edges : List (List Char × Edge) := []
  deriving DecidableEq, Repr

/-- `sorted([qubit1, qubit2])` for a two-element list. -/
def sortedPair (a b : ℕ) : List ℕ := [min a b, max a b]

/-- `_make_edge_id`: `'-'.join(str(q) for q in sorted([qubit1, qubit2]))`. -/
def make_edge_id (qubit1 qubit2 : ℕ) : List Char :=
  natDigits (min qubit1 qubit2) ++ '-' :: natDigits (max qubit1 qubit2)

/-- `_edge_ids_from_id`: `[int(node_id) for node_id in edge_id.split("-")]`;
`none` where `int` raises. -/
def edge_ids_from_id (edge_id : List Char) : Option (List ℕ) :=
  mapOrFail parseNat (splitOnDash edge_id)

/-- `add_qubit`: insert a fresh `Qubit` under key `str(node_id)` if absent,
returning the (possibly pre-existing) entry's key. -/
def add_qubit (device : CompilerISA) (node_id : ℕ) : CompilerISA :=
  if (device.qubits.lookup (natDigits node_id)).isSome then device
  else { device with
          qubits := device.qubits ++ [(natDigits node_id, { id := node_id })] }

def get_qubit (device : CompilerISA) (node_id : ℕ) : Option Qubit :=
  device.qubits.lookup (natDigits node_id)

/-- `add_edge`: insert a fresh `Edge` with sorted ids under the canonical key
if absent. -/
def add_edge (device : CompilerISA) (qubit1 qubit2 : ℕ) : CompilerISA :=
  if (device.edges.lookup (make_edge_id qubit1 qubit2)).isSome then device
  else { device with
          edges := device.edges ++
            [(make_edge_id qubit1 qubit2, { ids := sortedPair qubit1 qubit2 })] }

def get_edge (device : CompilerISA) (qubit1 qubit2 : ℕ) : Option Edge :=
  device.edges.lookup (make_edge_id qubit1 qubit2)

theorem splitOnDash_make_edge_id (a b : ℕ) :
    splitOnDash (make_edge_id a b) =
      [natDigits (min a b), natDigits (max a b)] := by
  unfold make_edge_id
  rw [splitOnDash_append (dash_not_mem_natDigits _)]
  have : splitOnDash (natDigits (max a b)) = [natDigits (max a b)] := by
    have h := dash_not_mem_natDigits (max a b)
    generalize natDigits (max a b) = s at h ⊢
    induction s with
    | nil => rfl
    | cons c cs ih =>
      have hc : c ≠ '-' := fun hcontra => h (hcontra ▸ List.mem_cons_self c cs)
      have hcs : '-' ∉ cs := fun hmem => h (List.mem_cons_of_mem c hmem)
      simp only [splitOnDash, if_neg hc, ih hcs]
  rw [this]

/--
**C6.** For all qubit ids `a` and `b`: the canonical edge key of `(a,b)` equals
that of `(b,a)`; splitting the key on `"-"` yields the decimal renderings of
the two ids in ascending numeric order; and parsing the key back yields exactly
the original unordered pair.
-/
theorem edge_id_canonical_roundtrip (a b : ℕ) :
    make_edge_id a b = make_edge_id b a ∧
    splitOnDash (make_edge_id a b) =
      [natDigits (min a b), natDigits (max a b)] ∧
    min a b ≤ max a b ∧
    ((min a b = a ∧ max a b = b) ∨ (min a b = b ∧ max a b = a)) ∧
    edge_ids_from_id (make_edge_id a b) = some [min a b, max a b] := by
  refine ⟨?_, splitOnDash_make_edge_id a b, min_le_max, ?_, ?_⟩
  · unfold make_edge_id
    rw [min_comm, max_comm]
  · rcases le_total a b with h | h
    · left; exact ⟨min_eq_left h, max_eq_right h⟩
    · right; exact ⟨min_eq_right h, max_eq_left h⟩
  · unfold edge_ids_from_id
    rw [splitOnDash_make_edge_id a b]
    simp [mapOrFail, parseNat_natDigits]

/-! ### `pyquil/device/graph.py` -/

/-- The exact rational value of the IEEE-754 double `np.pi`. -/
def floatPi : ℚ := 884279719003555 / 281474976710656

def DEFAULT_1Q_GATES : List String := ["I", "RX", "RZ", "MEASURE"]

def DEFAULT_2Q_GATES : List String := ["CZ", "XY"]

namespace GraphDevice

def _make_i_gates : List ISAGate :=
  [.gate { operator := "I", parameters := [], arguments := [.sym "_"] }]

def _make_measure_gates : List ISAGate :=
  [.measure { operator := "MEASURE", qubit := some (.sym "_"), target := some (.sym "_") },
   .measure { operator := "MEASURE", qubit := some (.sym "_"), target := none }]

def _make_rx_gates : List ISAGate :=
  [(0 : ℚ), floatPi, -floatPi, floatPi / 2, -floatPi / 2].map fun p =>
    .gate { operator := "RX", parameters := [.num p], arguments := [.sym "_"] }

def _make_rz_gates : List ISAGate :=
  [.gate { operator := "RZ", parameters := [.sym "theta"], arguments := [.sym "_"] }]

def _make_wildcard_1q_gates : List ISAGate :=
  [.gate { operator := "_", parameters := [.sym "_"], arguments := [.sym "_"] }]

/-- `_transform_qubit_operation_to_gates`; `GraphGateError` is the `error` case. -/
def _transform_qubit_operation_to_gates (operation_name : String) :
    Except String (List ISAGate) :=
  if operation_name = "I" then .ok _make_i_gates
  else if operation_name = "RX" then .ok _make_rx_gates
  else if operation_name = "RZ" then .ok _make_rz_gates
  else if operation_name = "MEASURE" then .ok _make_measure_gates
  else if operation_name = "WILDCARD" then .ok _make_wildcard_1q_gates
  else .error ("Unsupported graph qubit operation: " ++ operation_name)

def _make_cz_gates : List GateInfo :=
  [{ operator := "CZ", parameters := [], arguments := [.sym "_", .sym "_"] }]

def _make_iswap_gates : List GateInfo :=
  [{ operator := "ISWAP", parameters := [], arguments := [.sym "_", .sym "_"] }]

def _make_cphase_gates : List GateInfo :=
  [{ operator := "CPHASE", parameters := [.sym "theta"], arguments := [.sym "_", .sym "_"] }]

def _make_xy_gates : List GateInfo :=
  [{ operator := "XY", parameters := [.sym "theta"], arguments := [.sym "_", .sym "_"] }]

def _make_wildcard_2q_gates : List GateInfo :=
  [{ operator := "_", parameters := [.sym "_"], arguments := [.sym "_", .sym "_"] }]

/-- `_transform_edge_operation_to_gates`; `GraphGateError` is the `error` case. -/
def _transform_edge_operation_to_gates (operation_name : String) :
    Except String (List GateInfo) :=
  if operation_name = "CZ" then .ok _make_cz_gates
  else if operation_name = "ISWAP" then .ok _make_iswap_gates
  else if operation_name = "CPHASE" then .ok _make_cphase_gates
  else if operation_name = "XY" then .ok _make_xy_gates
  else if operation_name = "WILDCARD" then .ok _make_wildcard_2q_gates
  else .error ("Unsupported graph edge operation: " ++ operation_name)

end GraphDevice

/-- An `nx.Graph` as consumed/produced by the transformer: node list and edge
list.  networkx keeps each unordered edge once and every edge endpoint among
the nodes; theorems state those invariants as hypotheses where needed. -/
structure NxGraph where
  nodes : List ℕ
  edges : List (ℕ × ℕ)
  deriving DecidableEq, Repr

/-- `max(graph.nodes)`; meaningful only for a non-empty node list (Python
raises `ValueError` on an empty one, which the caller below checks). -/
def maxNode (g : NxGraph) : ℕ := g.nodes.foldl max 0

/-- Mutation of the `Qubit` object returned by `add_qubit`
(`qubit.gates = ...; qubit.dead = ...`), as a functional update of the entry. -/
def setQubitFields (d : CompilerISA) (key : List Char) (gates : List ISAGate)
    (dead : Bool) : CompilerISA :=
  { d with qubits := d.qubits.map fun kv =>
      if kv.1 = key then (kv.1, { kv.2 with gates := gates, dead := dead }) else kv }

/-- Mutation of the `Edge` object returned by `add_edge` (`edge.gates = ...`). -/
def setEdgeGates (d : CompilerISA) (key : List Char) (gates : List GateInfo) :
    CompilerISA :=
  { d with edges := d.edges.map fun kv =>
      if kv.1 = key then (kv.1, { kv.2 with gates := gates }) else kv }

/-- One iteration of the qubit loop of `compiler_isa_from_graph`:
`qubit = add_qubit(device, i); qubit.gates = qubit_gates;
qubit.dead = i not in graph.nodes`. -/
def fromGraphQubitStep (nodes : List ℕ) (qg : List ISAGate)
    (d : CompilerISA) (i : ℕ) : CompilerISA :=
  setQubitFields (add_qubit d i) (natDigits i) qg (!(nodes.contains i))

/-- One iteration of the edge loop of `compiler_isa_from_graph`:
`edge = add_edge(device, a, b); edge.gates = edge_gates`. -/
def fromGraphEdgeStep (eg : List GateInfo) (d : CompilerISA) (p : ℕ × ℕ) :
    CompilerISA :=
  setEdgeGates (add_edge d p.1 p.2) (make_edge_id p.1 p.2) eg

/-- `gates_1q or DEFAULT_1Q_GATES.copy()`: `None` and the empty list are falsy. -/
def effectiveGates1q (gates_1q : Option (List String)) : List String :=
  match gates_1q with
  | some l => if l = [] then DEFAULT_1Q_GATES else l
  | none => DEFAULT_1Q_GATES

/-- `gates_2q or DEFAULT_2Q_GATES.copy()`. -/
def effectiveGates2q (gates_2q : Option (List String)) : List String :=
  match gates_2q with
  | some l => if l = [] then DEFAULT_2Q_GATES else l
  | none => DEFAULT_2Q_GATES

/-- `compiler_isa_from_graph`.  `GraphGateError` (unsupported gate name) and the
`ValueError` from `max()` on an empty node list are the `error` cases. -/
def compiler_isa_from_graph (graph : NxGraph)
    (gates_1q gates_2q : Option (List String)) : Except String CompilerISA := do
  let qubit_gates ← (effectiveGates1q gates_1q).foldlM
    (fun (acc : List ISAGate) gate => do
      pure (acc ++ (← GraphDevice._transform_qubit_operation_to_gates gate))) []
  if graph.nodes = [] then throw "ValueError: max() arg is an empty sequence" else
  -- `all_qubits = list(range(max(graph.nodes) + 1))`
  let device := (List.range (maxNode graph + 1)).foldl
    (fromGraphQubitStep graph.nodes qubit_gates) {}
  let edge_gates ← (effectiveGates2q gates_2q).foldlM
    (fun (acc : List GateInfo) gate => do
      pure (acc ++ (← GraphDevice._transform_edge_operation_to_gates gate))) []
  pure (graph.edges.foldl (fromGraphEdgeStep edge_gates) device)

/-- Apply a fallible function to every list element, propagating the first
failure (a Python comprehension over a raising function). -/
def mapExcept {ε α β : Type} (f : α → Except ε β) : List α → Except ε (List β)
  | [] => .ok []
  | x :: xs => do
    let y ← f x
    let ys ← mapExcept f xs
    pure (y :: ys)

/-- An `edge.ids` value as an edge tuple; `nx.from_edgelist` rejects lists that
are not pairs (or triples with data, which never occur here). -/
def edgePairOfIds : List ℕ → Except String (ℕ × ℕ)
  | [a, b] => .ok (a, b)
  | _ => .error "from_edgelist: each edge must be given by exactly two ids"

/-- `nx.from_edgelist`: the graph whose nodes are the endpoints of the listed
edges.  (networkx stores nodes and unordered edges deduplicated; the lists here
may repeat, and graph comparisons below go through finite node/edge sets.) -/
def nxFromEdgelist (pairs : List (ℕ × ℕ)) : NxGraph :=
  { nodes := pairs.foldr (fun p acc => p.1 :: p.2 :: acc) [], edges := pairs }

/-- `compiler_isa_to_graph`:
`nx.from_edgelist([int(i) for i in edge.ids] for edge in compiler_isa.edges.values())`. -/
def compiler_isa_to_graph (compiler_isa : CompilerISA) : Except String NxGraph := do
  let pairs ← mapExcept (fun kv => edgePairOfIds kv.2.ids) compiler_isa.edges
  pure (nxFromEdgelist pairs)

/-- The node set of a graph. -/
def nodeFinset (g : NxGraph) : Finset ℕ := g.nodes.toFinset

/-- The set of unordered edges of a graph. -/
def adjFinset (g : NxGraph) : Finset (Sym2 ℕ) :=
  (g.edges.map fun p => s(p.1, p.2)).toFinset

/-- Graph isomorphism: a bijection between the node sets preserving adjacency. -/
def NxIso (g₁ g₂ : NxGraph) : Prop :=
  ∃ f : ℕ → ℕ, Set.BijOn f ↑(nodeFinset g₁) ↑(nodeFinset g₂) ∧
    ∀ a ∈ nodeFinset g₁, ∀ b ∈ nodeFinset g₁,
      (s(a, b) ∈ adjFinset g₁ ↔ s(f a, f b) ∈ adjFinset g₂)

theorem nxIso_of_eq {g₁ g₂ : NxGraph} (hn : nodeFinset g₁ = nodeFinset g₂)
    (ha : adjFinset g₁ = adjFinset g₂) : NxIso g₁ g₂ := by
  refine ⟨id, ?_, ?_⟩
  · rw [← hn]; exact Set.bijOn_id _
  · intro a _ b _
    rw [ha]
    exact Iff.rfl

/-! ### `pyquil/device/qcs.py` -/

namespace QCS

/-- A named numeric characteristic of a site (`qcs_api_client.models.Characteristic`). -/
structure Characteristic where
  name : String
  value : ℚ
  deriving DecidableEq, Repr

/-- A site an operation is scoped to: node ids plus characteristics. -/
structure Site where
  node_ids : List ℕ
  characteristics : List Characteristic
  deriving DecidableEq, Repr

/-- A named operation of the vendor ISA, scoped to `node_count` nodes per site. -/
structure Operation where
  name : String
  node_count : ℕ
  sites : List Site
  deriving DecidableEq, Repr

structure Node where
  node_id : ℕ
  deriving DecidableEq, Repr

structure ArchEdge where
  node_ids : List ℕ
  deriving DecidableEq, Repr

structure Architecture where
  nodes : List Node
  edges : List ArchEdge
  deriving DecidableEq, Repr

/-- The vendor `InstructionSetArchitecture` document. -/
structure InstructionSetArchitecture where
  architecture : Architecture
  instructions : List Operation
  deriving DecidableEq, Repr

/-- Python exceptions raised by the QCS transformer. -/
inductive PyError where
  | qcsParse (msg : String)
  | indexError
  deriving DecidableEq, Repr

def PERFECT_FIDELITY : ℚ := 1

def PERFECT_DURATION : ℚ := 1 / 100

/-- `_operation_names_to_compiler_fidelity_default`; the dictionary is only
ever indexed at the six keys below. -/
def fidelityDefault : String → ℚ
  | "CZ" => 89 / 100
  | "ISWAP" => 90 / 100
  | "CPHASE" => 85 / 100
  | "XY" => 86 / 100
  | "RX" => 95 / 100
  | "MEASURE" => 90 / 100
  | _ => 0

/-- `_operation_names_to_compiler_duration_default`. -/
def durationDefault : String → ℚ
  | "CZ" => 200
  | "ISWAP" => 200
  | "CPHASE" => 200
  | "XY" => 200
  | "RX" => 50
  | "MEASURE" => 2000
  | _ => 0

/-- The `for characteristic in characteristics: if name matches: take value;
break` pattern: value of the first matching characteristic, else the default. -/
def lookupCharacteristic (cs : List Characteristic) (name : String)
    (dflt : ℚ) : ℚ :=
  match cs.find? (fun c => c.name == name) with
  | some c => c.value
  | none => dflt

def _make_measure_gates (node_id : ℕ) (cs : List Characteristic) : List ISAGate :=
  let duration := durationDefault "MEASURE"
  let fidelity := lookupCharacteristic cs "fRO" (fidelityDefault "MEASURE")
  [.measure { operator := "MEASURE", qubit := some (.sym (toString node_id)),
              target := some (.sym "_"),
              fidelity := some fidelity, duration := some duration },
   .measure { operator := "MEASURE", qubit := some (.sym (toString node_id)),
              target := none,
              fidelity := some fidelity, duration := some duration }]

def _make_rx_gates (node_id : ℕ) (cs : List Characteristic) : List ISAGate :=
  let default_duration := durationDefault "RX"
  let fidelity := lookupCharacteristic cs "f1QRB" (fidelityDefault "RX")
  .gate { operator := "RX", parameters := [.num 0], arguments := [.num node_id],
          fidelity := some PERFECT_FIDELITY, duration := some default_duration } ::
    ([floatPi, -floatPi, floatPi / 2, -floatPi / 2].map fun p =>
      .gate { operator := "RX", parameters := [.num p], arguments := [.num node_id],
              fidelity := some fidelity, duration := some default_duration })

def _make_rz_gates (node_id : ℕ) : List ISAGate :=
  [.gate { operator := "RZ", parameters := [.sym "_"], arguments := [.num node_id],
           fidelity := some PERFECT_FIDELITY, duration := some PERFECT_DURATION }]

def _make_wildcard_1q_gates (node_id : ℕ) : List ISAGate :=
  [.gate { operator := "_", parameters := [.sym "_"], arguments := [.num node_id],
           fidelity := some PERFECT_FIDELITY, duration := some PERFECT_DURATION }]

/-- `_transform_qubit_operation_to_gates` (QCS path); `QCSISAParseError` is the
`error` case.  Note the `{"I", "RESET"}` arm returns an empty gate list. -/
def _transform_qubit_operation_to_gates (operation_name : String) (node_id : ℕ)
    (cs : List Characteristic) : Except PyError (List ISAGate) :=
  if operation_name = "RX" then .ok (_make_rx_gates node_id cs)
  else if operation_name = "RZ" then .ok (_make_rz_gates node_id)
  else if operation_name = "MEASURE" then .ok (_make_measure_gates node_id cs)
  else if operation_name = "WILDCARD" then .ok (_make_wildcard_1q_gates node_id)
  else if operation_name = "I" ∨ operation_name = "RESET" then .ok []
  else .error (.qcsParse ("Unsupported qubit operation: " ++ operation_name))

def _make_cz_gates (cs : List Characteristic) : List GateInfo :=
  [{ operator := "CZ", parameters := [], arguments := [.sym "_", .sym "_"],
     fidelity := some (lookupCharacteristic cs "fCZ" (fidelityDefault "CZ")),
     duration := some (durationDefault "CZ") }]

def _make_iswap_gates (cs : List Characteristic) : List GateInfo :=
  [{ operator := "ISWAP", parameters := [], arguments := [.sym "_", .sym "_"],
     fidelity := some (lookupCharacteristic cs "fISWAP" (fidelityDefault "ISWAP")),
     duration := some (durationDefault "ISWAP") }]

/-- NOTE: the source sets `operator=Supported2QGate.ISWAP` in this function,
although its name, fidelity characteristic (`fCPHASE`) and defaults are all
CPHASE's. -/
def _make_cphase_gates (cs : List Characteristic) : List GateInfo :=
  [{ operator := "ISWAP", parameters := [.sym "theta"], arguments := [.sym "_", .sym "_"],
     fidelity := some (lookupCharacteristic cs "fCPHASE" (fidelityDefault "CPHASE")),
     duration := some (durationDefault "CPHASE") }]

def _make_xy_gates (cs : List Characteristic) : List GateInfo :=
  [{ operator := "XY", parameters := [.sym "theta"], arguments := [.sym "_", .sym "_"],
     fidelity := some (lookupCharacteristic cs "fXY" (fidelityDefault "XY")),
     duration := some (durationDefault "XY") }]

def _make_wildcard_2q_gates : List GateInfo :=
  [{ operator := "_", parameters := [.sym "_"], arguments := [.sym "_", .sym "_"],
     fidelity := some PERFECT_FIDELITY, duration := some PERFECT_DURATION }]

/-- `_transform_edge_operation_to_gates` (QCS path). -/
def _transform_edge_operation_to_gates (operation_name : String)
    (cs : List Characteristic) : Except PyError (List GateInfo) :=
  if operation_name = "CZ" then .ok (_make_cz_gates cs)
  else if operation_name = "ISWAP" then .ok (_make_iswap_gates cs)
  else if operation_name = "CPHASE" then .ok (_make_cphase_gates cs)
  else if operation_name = "XY" then .ok (_make_xy_gates cs)
  else if operation_name = "WILDCARD" then .ok _make_wildcard_2q_gates
  else .error (.qcsParse ("Unsupported edge operation: " ++ operation_name))

end QCS

/-- `operation_qubit.gates.extend(...)` as a functional update of the entry. -/
def extendQubitGates (d : CompilerISA) (key : List Char) (new : List ISAGate) :
    CompilerISA :=
  { d with qubits := d.qubits.map fun kv =>
      if kv.1 = key then (kv.1, { kv.2 with gates := kv.2.gates ++ new }) else kv }

/-- `operation_edge.gates.extend(...)` as a functional update of the entry. -/
def extendEdgeGates (d : CompilerISA) (key : List Char) (new : List GateInfo) :
    CompilerISA :=
  { d with edges := d.edges.map fun kv =>
      if kv.1 = key then (kv.1, { kv.2 with gates := kv.2.gates ++ new }) else kv }

/-- A `defaultdict(set)` keyed by `κ`, as an association list of lists. -/
def seenLookup {κ : Type} [DecidableEq κ] (seen : List (κ × List String))
    (k : κ) : List String :=
  match seen.lookup k with
  | some v => v
  | none => []

def seenInsert {κ : Type} [DecidableEq κ] (seen : List (κ × List String))
    (k : κ) (v : String) : List (κ × List String) :=
  if (seen.lookup k).isSome then
    seen.map fun kv => if kv.1 = k then (kv.1, kv.2 ++ [v]) else kv
  else seen ++ [(k, [v])]

/-- State threaded through the site loop of `_transform_qcs_isa_to_compiler_isa`. -/
structure QCSTransformState where
  device : CompilerISA
  qubitSeen : List (ℕ × List String)
  edgeSeen : List (List Char × List String)

/-- The body of the `for site in operation.sites` loop. -/
def processSite (op : QCS.Operation) (st : QCSTransformState) (site : QCS.Site) :
    Except QCS.PyError QCSTransformState :=
  if op.node_count = 1 then
    if site.node_ids.length ≠ 1 then
      .error (.qcsParse ("operation " ++ op.name ++
        " has node count 1, but site has a different number of node_ids"))
    else
      match site.node_ids.head? with
      | none => .error .indexError
      | some nid =>
        match get_qubit st.device nid with
        | none => .error (.qcsParse ("operation " ++ op.name ++
            " has node not declared in architecture"))
        | some operation_qubit =>
          if (seenLookup st.qubitSeen operation_qubit.id).contains op.name then
            .ok st
          else do
            let gs ← QCS._transform_qubit_operation_to_gates op.name
              operation_qubit.id site.characteristics
            .ok { st with
              device := extendQubitGates st.device
                (natDigits operation_qubit.id) gs,
              qubitSeen := seenInsert st.qubitSeen operation_qubit.id op.name }
  else if op.node_count = 2 then
    -- NOTE (source, qcs.py:110-114): the `len(site.node_ids) != 2` branch
    -- *constructs* a QCSISAParseError but does not raise it, so it has no
    -- effect; the subsequent `site.node_ids[0]` / `site.node_ids[1]` indexing
    -- raises IndexError when fewer than two ids are present, and extra ids
    -- beyond the first two are silently ignored.
    match site.node_ids with
    | a :: b :: _ =>
      let edge_id := make_edge_id a b
      match get_edge st.device a b with
      | none => .error (.qcsParse ("operation " ++ op.name ++
          " has site whose edge is not declared in architecture"))
      | some _ =>
        if (seenLookup st.edgeSeen edge_id).contains op.name then .ok st
        else do
          let gs ← QCS._transform_edge_operation_to_gates op.name
            site.characteristics
          .ok { st with
            device := extendEdgeGates st.device edge_id gs,
            edgeSeen := seenInsert st.edgeSeen edge_id op.name }
    | _ => .error .indexError
  else .error (.qcsParse "unexpected operation node count")

/-- `_transform_qcs_isa_to_compiler_isa`. -/
def _transform_qcs_isa_to_compiler_isa (isa : QCS.InstructionSetArchitecture) :
    Except QCS.PyError CompilerISA := do
  let device := isa.architecture.nodes.foldl
    (fun d node => add_qubit d node.node_id) {}
  let device ← isa.architecture.edges.foldlM
    (fun d (edge : QCS.ArchEdge) =>
      match edge.node_ids with
      | a :: b :: _ => .ok (add_edge d a b)
      | _ => .error QCS.PyError.indexError)
    device
  let st ← isa.instructions.foldlM
    (fun st op => op.sites.foldlM (processSite op) st)
    { device := device, qubitSeen := [], edgeSeen := [] }
  pure st.device

/-!
### C5: operator names and parameter shapes of the QCS gate makers

The source's `_make_cphase_gates` labels its instance with operator `"ISWAP"`,
and the QCS `_make_rz_gates` uses the placeholder parameter `"_"`, not
`"theta"`.
-/

/--
**C5.** Evaluating the QCS gate makers: `_make_cphase_gates` (with no
characteristics) produces one instance whose operator name is `"ISWAP"` — not
`"CPHASE"` as the claim states — though with one symbolic angle parameter and
CPHASE's fidelity/duration defaults, and the QCS `_make_rz_gates` produces one
instance whose single parameter is the placeholder `"_"`, not `"theta"`.
-/
theorem qcs_cphase_gates_mislabeled_iswap :
    QCS._make_cphase_gates [] =
      [{ operator := "ISWAP", parameters := [.sym "theta"],
         arguments := [.sym "_", .sym "_"],
         fidelity := some (85 / 100), duration := some 200 }] ∧
    QCS._make_rz_gates 7 =
      [.gate { operator := "RZ", parameters := [.sym "_"], arguments := [.num 7],
               fidelity := some 1, duration := some (1 / 100) }] := by
  exact ⟨rfl, rfl⟩

/-!
### C4: error behaviour of `_transform_qcs_isa_to_compiler_isa`

The 1-site cardinality mismatch and the undeclared node/edge references raise
`QCSISAParseError`, but the 2-site cardinality check constructs the error
without raising it, so a 2-site operation whose site lists a single id fails
with `IndexError` instead.
-/

/--
**C4.** On an architecture declaring nodes 0, 1 and edge (0,1): a 1-site
operation with two node ids and operations referencing an undeclared node or
edge all raise `QCSISAParseError`, but a 2-site operation whose site lists
exactly one node id raises `IndexError` (the parse error at qcs.py:110-114 is
constructed and discarded), contradicting the claim.
-/
theorem qcs_isa_two_site_cardinality_not_parse_error :
    (_transform_qcs_isa_to_compiler_isa
      { architecture := { nodes := [⟨0⟩, ⟨1⟩], edges := [⟨[0, 1]⟩] },
        instructions := [{ name := "CZ", node_count := 2,
                           sites := [{ node_ids := [0], characteristics := [] }] }] }
      = .error .indexError) ∧
    (∀ msg, _transform_qcs_isa_to_compiler_isa
      { architecture := { nodes := [⟨0⟩, ⟨1⟩], edges := [⟨[0, 1]⟩] },
        instructions := [{ name := "CZ", node_count := 2,
                           sites := [{ node_ids := [0], characteristics := [] }] }] }
      ≠ .error (.qcsParse msg)) ∧
    (∃ msg, _transform_qcs_isa_to_compiler_isa
      { architecture := { nodes := [⟨0⟩, ⟨1⟩], edges := [⟨[0, 1]⟩] },
        instructions := [{ name := "RX", node_count := 1,
                           sites := [{ node_ids := [0, 1], characteristics := [] }] }] }
      = .error (.qcsParse msg)) ∧
    (∃ msg, _transform_qcs_isa_to_compiler_isa
      { architecture := { nodes := [⟨0⟩, ⟨1⟩], edges := [⟨[0, 1]⟩] },
        instructions := [{ name := "RX", node_count := 1,
                           sites := [{ node_ids := [7], characteristics := [] }] }] }
      = .error (.qcsParse msg)) ∧
    (∃ msg, _transform_qcs_isa_to_compiler_isa
      { architecture := { nodes := [⟨0⟩, ⟨1⟩, ⟨2⟩], edges := [⟨[0, 1]⟩] },
        instructions := [{ name := "CZ", node_count := 2,
                           sites := [{ node_ids := [1, 2], characteristics := [] }] }] }
      = .error (.qcsParse msg)) := by
  refine ⟨rfl, ?_, ⟨_, rfl⟩, ⟨_, rfl⟩, ⟨_, rfl⟩⟩
  intro msg h
  rw [show (_transform_qcs_isa_to_compiler_isa
      { architecture := { nodes := [⟨0⟩, ⟨1⟩], edges := [⟨[0, 1]⟩] },
        instructions := [{ name := "CZ", node_count := 2,
                           sites := [{ node_ids := [0], characteristics := [] }] }] })
      = .error .indexError from rfl] at h
  exact absurd (Except.error.inj h) (by simp)

/-! ### `pyquil/device/_base.py`: `gates_in_isa` -/

/-- A `pyquil.quilbase.Gate` as constructed by `gates_in_isa`: name, parameters
(`Parameter("x")` is `.sym "x"`), qubit arguments.  For the wildcard edge
instance the source passes the bare string `"_"` as the whole parameter
collection; it is modelled as the one-element list `[.sym "_"]`. -/
structure Gate where
  name : String
  params : List Param
  qubits : List ℕ
  deriving DecidableEq, Repr

/-- One iteration of the qubit-gates loop of `gates_in_isa`: the gates (zero or
one) contributed by one capability of a live qubit; `error` models the
`assert isinstance(gate, GateInfo)` failure and the unknown-operator
`ValueError`. -/
def gatesForQubitGate (q : Qubit) (gate : ISAGate) : Except String (List Gate) :=
  if gate.operator = "I" ∨ gate.operator = "RX" ∨ gate.operator = "RZ" then
    match gate with
    | .measure _ => .error "AssertionError: isinstance(gate, GateInfo)"
    | .gate gi =>
      -- `len(gate.parameters) > 0 and gate.parameters[0] == 0.0`
      -- (a string parameter never compares equal to the float 0.0)
      if (match gi.parameters.head? with
          | some (.num x) => x == 0
          | _ => false) then .ok []
      else
        -- `Parameter("theta")` when the RZ parameter list is exactly `["_"]`,
        -- otherwise each string parameter becomes a `Parameter` and numbers
        -- stay numbers (the identity on this model).
        .ok [{ name := gi.operator,
               params :=
                 if gi.operator = "RZ" ∧ gi.parameters = [.sym "_"] then
                   [.sym "theta"]
                 else gi.parameters,
               qubits := [q.id] }]
  else if gate.operator = "MEASURE" then .ok []
  else .error ("Unknown qubit gate operator: " ++ gate.operator)

/-- The edge loop body of `gates_in_isa` for one live edge; the trailing
`_log.warning(f"no gate for edge ...")` fall-through contributes no gates. -/
def gatesForEdge (e : Edge) : List Gate :=
  -- `operators` is `[gate.operator for gate in e.gates]`, `targets` is `e.ids`
  if (e.gates.map (fun g => g.operator)).contains "CZ" then
    [{ name := "CZ", params := [], qubits := e.ids },
     { name := "CZ", params := [], qubits := e.ids.reverse }]
  else if (e.gates.map (fun g => g.operator)).contains "ISWAP" then
    [{ name := "ISWAP", params := [], qubits := e.ids },
     { name := "ISWAP", params := [], qubits := e.ids.reverse }]
  else if (e.gates.map (fun g => g.operator)).contains "CPHASE" then
    [{ name := "CPHASE", params := [.sym "theta"], qubits := e.ids },
     { name := "CPHASE", params := [.sym "theta"], qubits := e.ids.reverse }]
  else if (e.gates.map (fun g => g.operator)).contains "XY" then
    [{ name := "XY", params := [.sym "theta"], qubits := e.ids },
     { name := "XY", params := [.sym "theta"], qubits := e.ids.reverse }]
  else if (e.gates.map (fun g => g.operator)).contains "WILDCARD" then
    [{ name := "_", params := [.sym "_"], qubits := e.ids },
     { name := "_", params := [.sym "_"], qubits := e.ids.reverse }]
  else []

/-- `gates_in_isa`. -/
def gates_in_isa (isa : CompilerISA) : Except String (List Gate) := do
  let gates ← isa.qubits.foldlM
    (fun (acc : List Gate) kv =>
      if kv.2.dead then pure acc
      else kv.2.gates.foldlM
        (fun acc2 g => do pure (acc2 ++ (← gatesForQubitGate kv.2 g))) acc)
    []
  let gates := isa.edges.foldl
    (fun (acc : List Gate) kv => if kv.2.dead then acc else acc ++ gatesForEdge kv.2)
    gates
  pure gates

/-!
### C3: gateset synthesis never silently drops a requested gate — except where
it does

The graph-path transforms and the QCS edge transform indeed yield a non-empty
instance list or an unknown-operator error; but the QCS qubit transform
returns an *empty* list, with no error, for the operators `"I"` and `"RESET"`,
and the `gates_in_isa` edge loop produces no instances — with only a log
warning and no error — for a live edge none of whose stored capability
operators is `CZ`/`ISWAP`/`CPHASE`/`XY`/`WILDCARD`.  Wildcard capabilities are
stored with operator `"_"` (graph.py:189, qcs.py:351), not `"WILDCARD"`, so a
requested wildcard edge gate is always on that silent path.
-/

theorem operators_contains_iff (gates : List GateInfo) (s : String) :
    (gates.map (fun g => g.operator)).contains s = true ↔
      ∃ gi ∈ gates, gi.operator = s := by
  constructor
  · intro h
    obtain ⟨gi, hgi, heq⟩ := List.mem_map.mp (List.elem_iff.mp h)
    exact ⟨gi, hgi, heq⟩
  · rintro ⟨gi, hgi, rfl⟩
    exact List.elem_iff.mpr (List.mem_map_of_mem _ hgi)

/--
**C3 counterexample.** Two silent drops, refuting the claim as stated:
requesting operator `"I"` for a qubit site through the QCS gateset synthesis
returns an empty instance list and raises no error; and building an ISA from
the path graph `0 - 1` with requested 2Q gate list `["WILDCARD"]` stores the
wildcard capability with operator `"_"`, which the `gates_in_isa` edge loop
(testing for `"WILDCARD"`) does not recognise — the live edge with its
requested gate contributes zero instances, with only a log warning and no
error.
-/
theorem gateset_synthesis_silent_drops :
    QCS._transform_qubit_operation_to_gates "I" 0 [] = .ok [] ∧
    gates_in_isa ((compiler_isa_from_graph ⟨[0, 1], [(0, 1)]⟩ (some ["RZ"])
        (some ["WILDCARD"])).toOption.getD {}) =
      .ok [{ name := "RZ", params := [.sym "theta"], qubits := [0] },
           { name := "RZ", params := [.sym "theta"], qubits := [1] }] :=
  ⟨rfl, rfl⟩

/--
**C3 (amended).** The `gates_in_isa` edge loop for a live edge produces no
instances exactly when none of the edge's stored capability operators is
`CZ`/`ISWAP`/`CPHASE`/`XY`/`WILDCARD` — in that case it only logs a
warning, raising no error (and since wildcard capabilities are stored with
operator `"_"`, a requested wildcard edge gate is always silently dropped).
For every requested operator name, the transform functions behave as the
claim states: the graph-path qubit and edge transforms and the QCS edge
transform produce at least one instance when they succeed, and they succeed
exactly on the operators of the fixed table, raising an unknown-operator
error otherwise; the QCS qubit transform likewise, *except* that the
operators `"I"` and `"RESET"` yield an empty instance list without an error.
-/
theorem gateset_synthesis_nonempty_or_error (operation_name : String) :
    (∀ e : Edge,
      gatesForEdge e = [] ↔
        ∀ gi ∈ e.gates, gi.operator ≠ "CZ" ∧ gi.operator ≠ "ISWAP" ∧
          gi.operator ≠ "CPHASE" ∧ gi.operator ≠ "XY" ∧
          gi.operator ≠ "WILDCARD") ∧
    ((∀ l, GraphDevice._transform_qubit_operation_to_gates operation_name = .ok l →
      l ≠ []) ∧
    ((∃ l, GraphDevice._transform_qubit_operation_to_gates operation_name = .ok l) ↔
      operation_name ∈ ["I", "RX", "RZ", "MEASURE", "WILDCARD"]) ∧
    (∀ l, GraphDevice._transform_edge_operation_to_gates operation_name = .ok l →
      l ≠ []) ∧
    ((∃ l, GraphDevice._transform_edge_operation_to_gates operation_name = .ok l) ↔
      operation_name ∈ ["CZ", "ISWAP", "CPHASE", "XY", "WILDCARD"]) ∧
    (∀ node_id cs l,
      QCS._transform_qubit_operation_to_gates operation_name node_id cs = .ok l →
      l ≠ [] ∨ operation_name = "I" ∨ operation_name = "RESET") ∧
    (∀ node_id cs,
      (∃ l, QCS._transform_qubit_operation_to_gates operation_name node_id cs = .ok l) ↔
      operation_name ∈ ["RX", "RZ", "MEASURE", "WILDCARD", "I", "RESET"]) ∧
    (∀ cs l, QCS._transform_edge_operation_to_gates operation_name cs = .ok l →
      l ≠ []) ∧
    (∀ cs,
      (∃ l, QCS._transform_edge_operation_to_gates operation_name cs = .ok l) ↔
      operation_name ∈ ["CZ", "ISWAP", "CPHASE", "XY", "WILDCARD"])) := by
  constructor
  · intro e
    unfold gatesForEdge
    by_cases h1 : (e.gates.map (fun g => g.operator)).contains "CZ" = true
    · rw [if_pos h1]
      obtain ⟨gi, hgi, hop⟩ := (operators_contains_iff e.gates "CZ").mp h1
      exact iff_of_false (by simp) (fun hall => (hall gi hgi).1 hop)
    · rw [if_neg h1]
      by_cases h2 : (e.gates.map (fun g => g.operator)).contains "ISWAP" = true
      · rw [if_pos h2]
        obtain ⟨gi, hgi, hop⟩ := (operators_contains_iff e.gates "ISWAP").mp h2
        exact iff_of_false (by simp) (fun hall => (hall gi hgi).2.1 hop)
      · rw [if_neg h2]
        by_cases h3 : (e.gates.map (fun g => g.operator)).contains "CPHASE" = true
        · rw [if_pos h3]
          obtain ⟨gi, hgi, hop⟩ := (operators_contains_iff e.gates "CPHASE").mp h3
          exact iff_of_false (by simp) (fun hall => (hall gi hgi).2.2.1 hop)
        · rw [if_neg h3]
          by_cases h4 : (e.gates.map (fun g => g.operator)).contains "XY" = true
          · rw [if_pos h4]
            obtain ⟨gi, hgi, hop⟩ := (operators_contains_iff e.gates "XY").mp h4
            exact iff_of_false (by simp) (fun hall => (hall gi hgi).2.2.2.1 hop)
          · rw [if_neg h4]
            by_cases h5 :
                (e.gates.map (fun g => g.operator)).contains "WILDCARD" = true
            · rw [if_pos h5]
              obtain ⟨gi, hgi, hop⟩ :=
                (operators_contains_iff e.gates "WILDCARD").mp h5
              exact iff_of_false (by simp) (fun hall => (hall gi hgi).2.2.2.2 hop)
            · rw [if_neg h5]
              refine iff_of_true rfl ?_
              intro gi hgi
              refine ⟨?_, ?_, ?_, ?_, ?_⟩ <;> intro hop
              · exact h1 ((operators_contains_iff e.gates "CZ").mpr ⟨gi, hgi, hop⟩)
              · exact h2 ((operators_contains_iff e.gates "ISWAP").mpr ⟨gi, hgi, hop⟩)
              · exact h3 ((operators_contains_iff e.gates "CPHASE").mpr ⟨gi, hgi, hop⟩)
              · exact h4 ((operators_contains_iff e.gates "XY").mpr ⟨gi, hgi, hop⟩)
              · exact h5 ((operators_contains_iff e.gates "WILDCARD").mpr ⟨gi, hgi, hop⟩)
  · unfold GraphDevice._transform_qubit_operation_to_gates
      GraphDevice._transform_edge_operation_to_gates
      QCS._transform_qubit_operation_to_gates
      QCS._transform_edge_operation_to_gates
    by_cases hI : operation_name = "I" <;>
      by_cases hRX : operation_name = "RX" <;>
        by_cases hRZ : operation_name = "RZ" <;>
          by_cases hM : operation_name = "MEASURE" <;>
            by_cases hW : operation_name = "WILDCARD" <;>
              by_cases hCZ : operation_name = "CZ" <;>
                by_cases hIS : operation_name = "ISWAP" <;>
                  by_cases hCP : operation_name = "CPHASE" <;>
                    by_cases hXY : operation_name = "XY" <;>
                      by_cases hRS : operation_name = "RESET" <;>
    simp_all [GraphDevice._make_i_gates, GraphDevice._make_rx_gates,
      GraphDevice._make_rz_gates, GraphDevice._make_measure_gates,
      GraphDevice._make_wildcard_1q_gates, GraphDevice._make_cz_gates,
      GraphDevice._make_iswap_gates, GraphDevice._make_cphase_gates,
      GraphDevice._make_xy_gates, GraphDevice._make_wildcard_2q_gates,
      QCS._make_rx_gates, QCS._make_rz_gates, QCS._make_measure_gates,
      QCS._make_wildcard_1q_gates, QCS._make_cz_gates, QCS._make_iswap_gates,
      QCS._make_cphase_gates, QCS._make_xy_gates, QCS._make_wildcard_2q_gates]

/-- Witness for C3 (amended) at the operator `"RX"`. -/
theorem gateset_synthesis_nonempty_or_error_witness :
    GraphDevice._make_rx_gates ≠ [] :=
  (gateset_synthesis_nonempty_or_error "RX").2.1 GraphDevice._make_rx_gates rfl

/-- Folding an accumulator-growing step over a list in `Except` preserves a
per-element property of the accumulator. -/
theorem foldlM_except_ok_forall {α β ε : Type} (P : β → Prop) :
    ∀ (xs : List α) (step : List β → α → Except ε (List β)),
      (∀ acc x out, x ∈ xs → step acc x = .ok out →
        (∀ b ∈ acc, P b) → ∀ b ∈ out, P b) →
      ∀ (acc out : List β), xs.foldlM step acc = .ok out →
        (∀ b ∈ acc, P b) → ∀ b ∈ out, P b
  | [], _, _, acc, out, h, hacc => by
    simp only [List.foldlM_nil] at h
    cases h
    exact hacc
  | x :: xs, step, hstep, acc, out, h, hacc => by
    simp only [List.foldlM_cons] at h
    cases hs : step acc x with
    | error e => rw [hs] at h; exact Except.noConfusion h
    | ok acc' =>
      rw [hs] at h
      exact foldlM_except_ok_forall P xs step
        (fun a y o hy => hstep a y o (List.mem_cons_of_mem x hy))
        acc' out h
        (hstep acc x acc' (List.mem_cons_self x xs) hs hacc)

/-- The pure analogue for `List.foldl`. -/
theorem foldl_ok_forall {α β : Type} (P : β → Prop) :
    ∀ (xs : List α) (step : List β → α → List β),
      (∀ acc x, x ∈ xs → (∀ b ∈ acc, P b) → ∀ b ∈ step acc x, P b) →
      ∀ acc, (∀ b ∈ acc, P b) → ∀ b ∈ xs.foldl step acc, P b
  | [], _, _, acc, hacc => by simpa using hacc
  | x :: xs, step, hstep, acc, hacc => by
    simp only [List.foldl_cons]
    exact foldl_ok_forall P xs step
      (fun a y hy => hstep a y (List.mem_cons_of_mem x hy))
      (step acc x) (hstep acc x (List.mem_cons_self x xs) hacc)

/-- What one live-qubit capability contributes: at most one gate, on that
qubit, never a `MEASURE`, and never a rotation with leading parameter `0.0`. -/
theorem gatesForQubitGate_spec (q : Qubit) (g : ISAGate) (l : List Gate)
    (h : gatesForQubitGate q g = .ok l) :
    ∀ x ∈ l, x.qubits = [q.id] ∧ x.name ≠ "MEASURE" ∧
      ((x.name = "I" ∨ x.name = "RX" ∨ x.name = "RZ") →
        x.params.head? ≠ some (.num 0)) := by
  unfold gatesForQubitGate at h
  split at h
  · rename_i hop
    cases g with
    | measure m => exact Except.noConfusion h
    | gate gi =>
      have hop' : gi.operator = "I" ∨ gi.operator = "RX" ∨ gi.operator = "RZ" := hop
      have h2 : (if (match gi.parameters.head? with
            | some (Param.num x) => x == 0
            | _ => false) = true then (Except.ok [] : Except String (List Gate))
          else .ok [{ name := gi.operator,
                      params := if gi.operator = "RZ" ∧ gi.parameters = [Param.sym "_"]
                        then [Param.sym "theta"] else gi.parameters,
                      qubits := [q.id] }]) = .ok l := h
      clear h
      by_cases hskip : (match gi.parameters.head? with
          | some (Param.num x) => x == 0
          | _ => false) = true
      · rw [if_pos hskip] at h2
        cases h2
        intro x hx
        cases hx
      · rw [if_neg hskip] at h2
        cases h2
        intro x hx
        simp only [List.mem_singleton] at hx
        subst hx
        refine ⟨rfl, ?_, ?_⟩
        · show gi.operator ≠ "MEASURE"
          rcases hop' with h' | h' | h' <;> rw [h'] <;> decide
        · intro _ hzero
          have hzero' : (if gi.operator = "RZ" ∧ gi.parameters = [Param.sym "_"]
              then [Param.sym "theta"] else gi.parameters).head? =
                some (Param.num 0) := hzero
          by_cases hrz : gi.operator = "RZ" ∧ gi.parameters = [Param.sym "_"]
          · rw [if_pos hrz] at hzero'
            simp at hzero'
          · rw [if_neg hrz] at hzero'
            cases hp : gi.parameters.head? with
            | none => rw [hp] at hzero'; cases hzero'
            | some p =>
              rw [hp] at hzero'
              cases p with
              | num v =>
                have hv : v = 0 := Param.num.inj (Option.some.inj hzero')
                rw [hp] at hskip
                simp [hv] at hskip
              | sym s => simp at hzero'
  · by_cases hm : g.operator = "MEASURE"
    · rw [if_pos hm] at h
      cases h
      intro x hx
      cases hx
    · rw [if_neg hm] at h
      exact Except.noConfusion h

/-- What one live edge contributes: gates on the edge's id list (in either
direction), with a two-qubit operator name and no leading `0.0` parameter. -/
theorem gatesForEdge_spec (e : Edge) :
    ∀ x ∈ gatesForEdge e,
      (x.qubits = e.ids ∨ x.qubits = e.ids.reverse) ∧
      (x.name = "CZ" ∨ x.name = "ISWAP" ∨ x.name = "CPHASE" ∨ x.name = "XY" ∨
        x.name = "_") ∧
      x.params.head? ≠ some (.num 0) := by
  intro x hx
  unfold gatesForEdge at hx
  split at hx
  · simp only [List.mem_cons, List.not_mem_nil, or_false] at hx
    rcases hx with rfl | rfl
    · exact ⟨Or.inl rfl, by simp, by simp⟩
    · exact ⟨Or.inr rfl, by simp, by simp⟩
  · split at hx
    · simp only [List.mem_cons, List.not_mem_nil, or_false] at hx
      rcases hx with rfl | rfl
      · exact ⟨Or.inl rfl, by simp, by simp⟩
      · exact ⟨Or.inr rfl, by simp, by simp⟩
    · split at hx
      · simp only [List.mem_cons, List.not_mem_nil, or_false] at hx
        rcases hx with rfl | rfl
        · exact ⟨Or.inl rfl, by simp, by simp⟩
        · exact ⟨Or.inr rfl, by simp, by simp⟩
      · split at hx
        · simp only [List.mem_cons, List.not_mem_nil, or_false] at hx
          rcases hx with rfl | rfl
          · exact ⟨Or.inl rfl, by simp, by simp⟩
          · exact ⟨Or.inr rfl, by simp, by simp⟩
        · split at hx
          · simp only [List.mem_cons, List.not_mem_nil, or_false] at hx
            rcases hx with rfl | rfl
            · exact ⟨Or.inl rfl, by simp, by simp⟩
            · exact ⟨Or.inr rfl, by simp, by simp⟩
          · cases hx

/-- Provenance of every gate returned by `gates_in_isa`: it comes from a live
qubit entry (one-qubit argument list) or a live edge entry (that edge's ids,
possibly reversed); it is never a `MEASURE`; and a rotation never carries a
leading `0.0` parameter. -/
theorem gates_in_isa_spec (isa : CompilerISA) (gs : List Gate)
    (h : gates_in_isa isa = .ok gs) :
    ∀ x ∈ gs,
      ((∃ kv ∈ isa.qubits, kv.2.dead = false ∧ x.qubits = [kv.2.id]) ∨
       (∃ kv ∈ isa.edges, kv.2.dead = false ∧
          (x.qubits = kv.2.ids ∨ x.qubits = kv.2.ids.reverse))) ∧
      x.name ≠ "MEASURE" ∧
      ((x.name = "I" ∨ x.name = "RX" ∨ x.name = "RZ") →
        x.params.head? ≠ some (.num 0)) := by
  unfold gates_in_isa at h
  cases hq : isa.qubits.foldlM
      (fun (acc : List Gate) kv =>
        if kv.2.dead then pure acc
        else kv.2.gates.foldlM
          (fun acc2 g => do pure (acc2 ++ (← gatesForQubitGate kv.2 g))) acc)
      [] with
  | error e => rw [hq] at h; simp [Except.bind] at h
  | ok g1 =>
    rw [hq] at h
    simp only [Except.bind, pure, Except.pure] at h
    cases h
    -- gates from the qubit loop
    have hg1 : ∀ x ∈ g1,
        ((∃ kv ∈ isa.qubits, kv.2.dead = false ∧ x.qubits = [kv.2.id]) ∨
         (∃ kv ∈ isa.edges, kv.2.dead = false ∧
            (x.qubits = kv.2.ids ∨ x.qubits = kv.2.ids.reverse))) ∧
        x.name ≠ "MEASURE" ∧
        ((x.name = "I" ∨ x.name = "RX" ∨ x.name = "RZ") →
          x.params.head? ≠ some (.num 0)) := by
      refine foldlM_except_ok_forall (P := fun x =>
          ((∃ kv ∈ isa.qubits, kv.2.dead = false ∧ x.qubits = [kv.2.id]) ∨
           (∃ kv ∈ isa.edges, kv.2.dead = false ∧
              (x.qubits = kv.2.ids ∨ x.qubits = kv.2.ids.reverse))) ∧
          x.name ≠ "MEASURE" ∧
          ((x.name = "I" ∨ x.name = "RX" ∨ x.name = "RZ") →
            x.params.head? ≠ some (.num 0)))
        isa.qubits _ ?_ [] g1 hq ?_
      swap
      · intro b hb
        cases hb
      intro acc kv out hkv hstep hacc
      by_cases hdead : kv.2.dead
      · simp only [hdead, if_true, pure, Except.pure] at hstep
        cases hstep
        exact hacc
      · simp only [hdead, if_false] at hstep
        refine foldlM_except_ok_forall (P := fun x =>
            ((∃ kv ∈ isa.qubits, kv.2.dead = false ∧ x.qubits = [kv.2.id]) ∨
             (∃ kv ∈ isa.edges, kv.2.dead = false ∧
                (x.qubits = kv.2.ids ∨ x.qubits = kv.2.ids.reverse))) ∧
            x.name ≠ "MEASURE" ∧
            ((x.name = "I" ∨ x.name = "RX" ∨ x.name = "RZ") →
              x.params.head? ≠ some (.num 0)))
          kv.2.gates _ ?_ acc out hstep hacc
        intro acc2 g out2 _ hstep2 hacc2
        cases hgg : gatesForQubitGate kv.2 g with
        | error e => rw [hgg] at hstep2; simp [Except.bind] at hstep2
        | ok l =>
          rw [hgg] at hstep2
          simp only [Except.bind, pure, Except.pure] at hstep2
          cases hstep2
          intro b hb
          rcases List.mem_append.mp hb with hb | hb
          · exact hacc2 b hb
          · obtain ⟨hqb, hnm, hrot⟩ := gatesForQubitGate_spec kv.2 g l hgg b hb
            exact ⟨Or.inl ⟨kv, hkv, Bool.of_not_eq_true hdead ▸ rfl, hqb⟩, hnm, hrot⟩
    -- gates from the edge loop
    refine foldl_ok_forall _ isa.edges _ ?_ g1 hg1
    intro acc kv hkv hacc b hb
    by_cases hdead : kv.2.dead
    · simp only [hdead, if_true] at hb
      exact hacc b hb
    · simp only [hdead, if_false] at hb
      rcases List.mem_append.mp hb with hb | hb
      · exact hacc b hb
      · obtain ⟨hqb, hnm, _⟩ := gatesForEdge_spec kv.2 b hb
        refine ⟨Or.inr ⟨kv, hkv, Bool.of_not_eq_true hdead ▸ rfl, hqb⟩, ?_, ?_⟩
        · intro hcontra
          rcases hnm with h' | h' | h' | h' | h' <;>
            exact absurd (h'.symm.trans hcontra) (by decide)
        · intro hrot
          rcases hnm with h' | h' | h' | h' | h' <;>
            rcases hrot with h'' | h'' | h'' <;>
              exact absurd (h'.symm.trans h'') (by decide)

/--
**C2 counterexample.** In an ISA where qubit 3 is marked dead but the edge 0-3
is alive with a CZ capability, `gates_in_isa` returns CZ instances whose
argument lists include the dead qubit 3 — refuting the claim that a dead qubit
is never referenced.
-/
theorem dead_qubit_referenced_by_live_edge :
    gates_in_isa
      { qubits := [(['0'], { id := 0 }), (['3'], { id := 3, dead := true })],
        edges := [(['0', '-', '3'],
          { ids := [0, 3],
            gates := [{ operator := "CZ", parameters := [], arguments := [] }] })] }
      = .ok [{ name := "CZ", params := [], qubits := [0, 3] },
             { name := "CZ", params := [], qubits := [3, 0] }] ∧
    3 ∈ ({ name := "CZ", params := [], qubits := [0, 3] } : Gate).qubits :=
  ⟨rfl, by simp⟩

/--
**C2 (amended).** If every qubit entry with id `q` is dead *and every edge
entry containing `q` is also dead*, then no gate returned by `gates_in_isa`
has `q` among its qubit arguments; and if every edge entry with ids `(a,b)`
(in either order) is dead, no returned gate has argument list `(a,b)` or
`(b,a)`.
-/
theorem gates_in_isa_dead_sites_unreferenced (isa : CompilerISA) (gs : List Gate)
    (q a b : ℕ) (h : gates_in_isa isa = .ok gs) :
    ((∀ kv ∈ isa.qubits, kv.2.id = q → kv.2.dead = true) →
     (∀ kv ∈ isa.edges, q ∈ kv.2.ids → kv.2.dead = true) →
     ∀ x ∈ gs, q ∉ x.qubits) ∧
    ((∀ kv ∈ isa.edges, (kv.2.ids = [a, b] ∨ kv.2.ids = [b, a]) →
        kv.2.dead = true) →
     ∀ x ∈ gs, x.qubits ≠ [a, b] ∧ x.qubits ≠ [b, a]) := by
  constructor
  · intro hq he x hx hmem
    obtain ⟨horigin, -, -⟩ := gates_in_isa_spec isa gs h x hx
    rcases horigin with ⟨kv, hkv, hlive, hqb⟩ | ⟨kv, hkv, hlive, hqb⟩
    · rw [hqb] at hmem
      simp only [List.mem_singleton] at hmem
      have hdead := hq kv hkv hmem.symm
      rw [hlive] at hdead
      cases hdead
    · have hqmem : q ∈ kv.2.ids := by
        rcases hqb with h' | h'
        · rw [h'] at hmem; exact hmem
        · rw [h'] at hmem; exact List.mem_reverse.mp hmem
      have hdead := he kv hkv hqmem
      rw [hlive] at hdead
      cases hdead
  · intro he x hx
    obtain ⟨horigin, -, -⟩ := gates_in_isa_spec isa gs h x hx
    rcases horigin with ⟨kv, hkv, hlive, hqb⟩ | ⟨kv, hkv, hlive, hqb⟩
    · rw [hqb]
      constructor <;> · intro hcontra; simp at hcontra
    · have key : ∀ p1 p2 : ℕ, x.qubits = [p1, p2] →
          kv.2.ids = [p1, p2] ∨ kv.2.ids = [p2, p1] := by
        intro p1 p2 hcontra
        rcases hqb with h' | h'
        · left; rw [← h']; exact hcontra
        · right
          rw [hcontra] at h'
          have := List.reverse_eq_iff.mp h'.symm
          simpa using this
      constructor
      · intro hcontra
        have hdead := he kv hkv (key a b hcontra)
        rw [hlive] at hdead
        cases hdead
      · intro hcontra
        have hdead := he kv hkv (key b a hcontra).symm
        rw [hlive] at hdead
        cases hdead

/-- A concrete ISA for exercising the dead-site theorems: qubit 0 alive with
an RZ capability, qubit 3 dead, edge 0-3 dead. -/
def rzThetaCapability : ISAGate :=
  .gate { operator := "RZ", parameters := [.sym "theta"], arguments := [.sym "_"] }

def isaDeadSitesExample : CompilerISA where
  qubits :=
    [(['0'], { id := 0, gates := [rzThetaCapability] }),
     (['3'], { id := 3, dead := true })]
  edges :=
    [(['0', '-', '3'],
      { ids := [0, 3], dead := true,
        gates := [{ operator := "CZ", parameters := [], arguments := [] }] })]

/-- Witness for C2 (amended): in an ISA where qubit 3 and the edge 0-3 are
both dead and qubit 0 is alive with an RZ capability, the single synthesized
gate does not reference qubit 3. -/
theorem gates_in_isa_dead_sites_unreferenced_witness :
    (3 : ℕ) ∉ ({ name := "RZ", params := [.sym "theta"], qubits := [0] } : Gate).qubits :=
  (gates_in_isa_dead_sites_unreferenced isaDeadSitesExample
    [{ name := "RZ", params := [.sym "theta"], qubits := [0] }]
    3 0 3 rfl).1 (by decide) (by decide) _ (by simp)

/--
**C10.** The gate list returned by `gates_in_isa` never contains a `MEASURE`
gate, and never contains a single-qubit rotation (`I`/`RX`/`RZ`) whose first
parameter is the number `0.0` — in particular no `RX(0)` instance — even when
those capabilities are present on live qubits of the ISA.
-/
theorem gates_in_isa_no_measure_no_zero_rotation (isa : CompilerISA)
    (gs : List Gate) (h : gates_in_isa isa = .ok gs) :
    ∀ x ∈ gs, x.name ≠ "MEASURE" ∧
      ((x.name = "I" ∨ x.name = "RX" ∨ x.name = "RZ") →
        x.params.head? ≠ some (.num 0)) := by
  intro x hx
  obtain ⟨-, hnm, hrot⟩ := gates_in_isa_spec isa gs h x hx
  exact ⟨hnm, hrot⟩

/-- Witness for C10 on an ISA whose live qubit has `RX(0)`, `MEASURE` and `RZ`
capabilities: the synthesized `RZ` instance is not a `MEASURE` and carries no
leading zero parameter. -/
def rxZeroCapability : ISAGate :=
  .gate { operator := "RX", parameters := [.num 0], arguments := [.sym "_"] }

def measureCapability : ISAGate :=
  .measure { operator := "MEASURE", qubit := some (.sym "_"), target := none }

def rzWildcardCapability : ISAGate :=
  .gate { operator := "RZ", parameters := [.sym "_"], arguments := [.sym "_"] }

/-- An ISA whose live qubit carries `RX(0)`, `MEASURE` and `RZ` capabilities
and whose live edge carries `CZ`. -/
def isaRotationExample : CompilerISA where
  qubits :=
    [(['0'], { id := 0,
               gates := [rxZeroCapability, measureCapability, rzWildcardCapability] })]
  edges :=
    [(['0', '-', '1'],
      { ids := [0, 1],
        gates := [{ operator := "CZ", parameters := [], arguments := [] }] })]

theorem gates_in_isa_no_measure_no_zero_rotation_witness :
    ({ name := "RZ", params := [.sym "theta"], qubits := [0] } : Gate).name ≠
        "MEASURE" ∧
      ((({ name := "RZ", params := [.sym "theta"], qubits := [0] } : Gate).name = "I" ∨
        ({ name := "RZ", params := [.sym "theta"], qubits := [0] } : Gate).name = "RX" ∨
        ({ name := "RZ", params := [.sym "theta"], qubits := [0] } : Gate).name = "RZ") →
        ({ name := "RZ", params := [.sym "theta"], qubits := [0] } : Gate).params.head? ≠
          some (.num 0)) :=
  gates_in_isa_no_measure_no_zero_rotation isaRotationExample
    [{ name := "RZ", params := [.sym "theta"], qubits := [0] },
     { name := "CZ", params := [], qubits := [0, 1] },
     { name := "CZ", params := [], qubits := [1, 0] }]
    rfl _ (by simp)

/-! ### Structure of the qubit map built by `compiler_isa_from_graph` (C7) -/

theorem bind_ok_eq {ε α β : Type} (a : α) (f : α → Except ε β) :
    (Except.ok a : Except ε α) >>= f = f a := rfl

theorem pure_eq_ok {ε α : Type} (a : α) :
    (pure a : Except ε α) = Except.ok a := rfl

theorem lookup_none_iff {β : Type} (k : List Char) :
    ∀ (l : List (List Char × β)), List.lookup k l = none ↔ ∀ kv ∈ l, kv.1 ≠ k
  | [] => by
    constructor
    · intro _ kv hkv
      cases hkv
    · intro _
      rfl
  | (a, b) :: rest => by
    by_cases h : k = a
    · subst h
      simp only [List.lookup, beq_self_eq_true]
      constructor
      · intro hcontra
        cases hcontra
      · intro hall
        exact absurd rfl (hall (k, b) (List.mem_cons_self _ _))
    · have hbeq : (k == a) = false := beq_eq_false_iff_ne.mpr h
      simp only [List.lookup, hbeq]
      rw [lookup_none_iff k rest]
      constructor
      · intro hrest kv hkv
        rcases List.mem_cons.mp hkv with rfl | hkv
        · exact fun hc => h hc.symm
        · exact hrest kv hkv
      · intro hall kv hkv
        exact hall kv (List.mem_cons_of_mem _ hkv)

theorem map_update_fresh {β : Type} (key : List Char)
    (g : List Char × β → List Char × β) :
    ∀ (l : List (List Char × β)), (∀ kv ∈ l, kv.1 ≠ key) →
      (l.map fun kv => if kv.1 = key then g kv else kv) = l := by
  intro l hl
  conv_rhs => rw [← List.map_id l]
  apply List.map_congr_left
  intro kv hkv
  simp [hl kv hkv]

theorem fromGraphQubitStep_fresh (nodes : List ℕ) (qg : List ISAGate)
    (d : CompilerISA) (i : ℕ)
    (hfresh : List.lookup (natDigits i) d.qubits = none) :
    (fromGraphQubitStep nodes qg d i).qubits =
      d.qubits ++ [(natDigits i, ⟨i, !(nodes.contains i), qg⟩)] ∧
    (fromGraphQubitStep nodes qg d i).edges = d.edges := by
  have hne : ∀ kv ∈ d.qubits, kv.1 ≠ natDigits i :=
    (lookup_none_iff (natDigits i) d.qubits).mp hfresh
  have hadd : (add_qubit d i).qubits = d.qubits ++ [(natDigits i, { id := i })] := by
    unfold add_qubit
    rw [hfresh]
    rfl
  constructor
  · show ((add_qubit d i).qubits.map fun kv =>
        if kv.1 = natDigits i
        then (kv.1, { kv.2 with gates := qg, dead := !(nodes.contains i) }) else kv)
      = _
    rw [hadd, List.map_append, map_update_fresh _ _ _ hne]
    simp
  · show (add_qubit d i).edges = d.edges
    unfold add_qubit
    split <;> rfl

theorem qubit_fold_spec (nodes : List ℕ) (qg : List ISAGate) :
    ∀ (l : List ℕ) (d : CompilerISA), l.Nodup →
      (∀ i ∈ l, List.lookup (natDigits i) d.qubits = none) →
      (l.foldl (fromGraphQubitStep nodes qg) d).qubits =
        d.qubits ++ l.map (fun i => (natDigits i, ⟨i, !(nodes.contains i), qg⟩)) ∧
      (l.foldl (fromGraphQubitStep nodes qg) d).edges = d.edges
  | [], d, _, _ => by simp
  | i :: l, d, hnodup, hfresh => by
    simp only [List.foldl_cons]
    obtain ⟨hq1, he1⟩ := fromGraphQubitStep_fresh nodes qg d i
      (hfresh i (List.mem_cons_self i l))
    have hnodup' : l.Nodup := (List.nodup_cons.mp hnodup).2
    have hnotmem : i ∉ l := (List.nodup_cons.mp hnodup).1
    have hfresh' : ∀ j ∈ l,
        List.lookup (natDigits j) (fromGraphQubitStep nodes qg d i).qubits = none := by
      intro j hj
      rw [lookup_none_iff, hq1]
      intro kv hkv
      rcases List.mem_append.mp hkv with hkv | hkv
      · exact (lookup_none_iff (natDigits j) d.qubits).mp
          (hfresh j (List.mem_cons_of_mem i hj)) kv hkv
      · simp only [List.mem_singleton] at hkv
        subst hkv
        intro hcontra
        exact hnotmem (natDigits_injective hcontra ▸ hj)
    obtain ⟨ih1, ih2⟩ := qubit_fold_spec nodes qg l
      (fromGraphQubitStep nodes qg d i) hnodup' hfresh'
    refine ⟨?_, ih2.trans he1⟩
    rw [ih1, hq1, List.append_assoc]
    rfl

/-- The edge loop of `compiler_isa_from_graph` leaves the qubit map unchanged. -/
theorem edge_fold_preserves_qubits (eg : List GateInfo) :
    ∀ (E : List (ℕ × ℕ)) (d : CompilerISA),
      (E.foldl (fromGraphEdgeStep eg) d).qubits = d.qubits
  | [], _ => rfl
  | p :: E, d => by
    simp only [List.foldl_cons]
    rw [edge_fold_preserves_qubits eg E]
    show (add_edge d p.1 p.2).qubits = d.qubits
    unfold add_edge
    split <;> rfl

/-- The qubit map produced by a successful `compiler_isa_from_graph` run, in
closed form: one entry per id in `0..max`, keyed by the decimal id, dead
exactly off the node set, all with the same expanded gate list. -/
theorem compiler_isa_from_graph_qubits_closed_form (g : NxGraph)
    (g1 g2 : Option (List String)) (isa : CompilerISA)
    (h : compiler_isa_from_graph g g1 g2 = .ok isa) :
    ∃ qubit_gates : List ISAGate,
      isa.qubits = (List.range (maxNode g + 1)).map
        (fun i => (natDigits i, ⟨i, !(g.nodes.contains i), qubit_gates⟩)) := by
  unfold compiler_isa_from_graph at h
  cases hqg : ((effectiveGates1q g1).foldlM
      (fun (acc : List ISAGate) gate => do
        pure (acc ++ (← GraphDevice._transform_qubit_operation_to_gates gate))) []) with
  | error e => rw [hqg] at h; exact Except.noConfusion h
  | ok qubit_gates =>
    rw [hqg] at h
    simp only [bind_ok_eq] at h
    by_cases hnil : g.nodes = []
    · rw [if_pos hnil] at h
      exact Except.noConfusion h
    · rw [if_neg hnil] at h
      cases heg : ((effectiveGates2q g2).foldlM
          (fun (acc : List GateInfo) gate => do
            pure (acc ++ (← GraphDevice._transform_edge_operation_to_gates gate))) []) with
      | error e => rw [heg] at h; exact Except.noConfusion h
      | ok edge_gates =>
        rw [heg] at h
        simp only [bind_ok_eq, pure_eq_ok] at h
        cases h
        refine ⟨qubit_gates, ?_⟩
        rw [edge_fold_preserves_qubits]
        have := qubit_fold_spec g.nodes qubit_gates
          (List.range (maxNode g + 1)) {} (List.nodup_range _) ?_
        · rw [this.1]
          rfl
        · intro i _
          rfl

/--
**C7 counterexample.** For the single-node graph `{0}`, `compiler_isa_from_graph`
produces a qubit entry with id 0, yet the half-open range
`[0, max-node-id) = [0, 0)` is empty — so the claim that entries exist exactly
for the ids in the half-open range `[0, max-node-id)` fails (the code covers
the *closed* range `[0, max]`).
-/
theorem compiler_isa_from_graph_includes_max_id :
    ((compiler_isa_from_graph ⟨[0], []⟩ none none).map fun d =>
      d.qubits.map fun kv => kv.2.id) = .ok [0] ∧
    ¬ (0 < maxNode ⟨[0], []⟩) :=
  ⟨rfl, by decide⟩

/--
**C7 (amended).** For every graph on which `compiler_isa_from_graph` succeeds,
the produced ISA contains a Qubit entry for every integer id in the *closed*
range `[0, max-node-id-in-graph]` (equivalently, the half-open range
`[0, max+1)`) and no others, keyed by the decimal id; a qubit's dead flag is
set exactly when its id is not a node of the graph.
-/
theorem compiler_isa_from_graph_qubit_entries (g : NxGraph)
    (g1 g2 : Option (List String)) (isa : CompilerISA)
    (h : compiler_isa_from_graph g g1 g2 = .ok isa) :
    (isa.qubits.map fun kv => kv.2.id) = List.range (maxNode g + 1) ∧
    ∀ kv ∈ isa.qubits, kv.1 = natDigits kv.2.id ∧
      (kv.2.dead = true ↔ kv.2.id ∉ g.nodes) := by
  obtain ⟨qubit_gates, hform⟩ :=
    compiler_isa_from_graph_qubits_closed_form g g1 g2 isa h
  constructor
  · rw [hform, List.map_map]
    exact List.map_id _
  · intro kv hkv
    rw [hform] at hkv
    simp only [List.mem_map, List.mem_range] at hkv
    obtain ⟨i, _, rfl⟩ := hkv
    refine ⟨rfl, ?_⟩
    show (!(g.nodes.contains i)) = true ↔ i ∉ g.nodes
    rw [Bool.not_eq_true']
    constructor
    · intro hfalse hmem
      have h2 : List.elem i g.nodes = false := hfalse
      rw [List.elem_iff.mpr hmem] at h2
      cases h2
    · intro hnmem
      by_cases hc : g.nodes.contains i
      · exact absurd (List.elem_iff.mp hc) hnmem
      · exact Bool.of_not_eq_true hc

/-- Witness for C7 (amended) on the graph with nodes `{0, 2}` and edge `(0,2)`:
the qubit ids are exactly `0, 1, 2`. -/
theorem compiler_isa_from_graph_qubit_entries_witness :
    ((((compiler_isa_from_graph ⟨[0, 2], [(0, 2)]⟩ none none).toOption.getD
        {}).qubits.map fun kv => kv.2.id) =
      List.range (maxNode ⟨[0, 2], [(0, 2)]⟩ + 1)) :=
  (compiler_isa_from_graph_qubit_entries ⟨[0, 2], [(0, 2)]⟩ none none _ rfl).1

/-! ### Recalculation Engine (spec section 4.4)

The resolver itself (`pyquil/api/_qpu.py`, `_resolve_memory_references` /
`_update_variables_shim_with_recalculation_table`) is not among the provided
sources — only its tests are — so the definitions below are modelled from the
spec. -/

/-- Modelled from the spec: the arithmetic expression tree of a
`RecalculationRule`, over named classical-memory parameters; operators are
add, subtract, multiply, and named unary functions (square-root, sine,
cosine).  The missing source is `pyquil/api/_qpu.py`. -/
inductive Expr where
  | lit (v : ℚ)
  | ref (region : String) (offset : ℕ)
  | add (a b : Expr)
  | sub (a b : Expr)
  | mul (a b : Expr)
  | fn (name : String) (arg : Expr)
  deriving DecidableEq, Repr

/-- Modelled from the spec: `memory_writes`, a mapping from (region name,
offset) to a numeric value, populated by the caller before each shot. -/
abbrev MemoryWrites : Type := List ((String × ℕ) × ℚ)

def lookupWrite (mem : MemoryWrites) (region : String) (offset : ℕ) : Option ℚ :=
  match mem.find? (fun kv => kv.1 == (region, offset)) with
  | some kv => some kv.2
  | none => none

/-- Modelled from the spec: resolution failures — a reference to a memory
location with no corresponding write (identifying the offending region and
offset, never silently defaulted), or a function outside the closed set. -/
inductive ResolveError where
  | missingValue (region : String) (offset : ℕ)
  | unsupportedFunction (name : String)
  deriving DecidableEq, Repr

/-- Modelled from the spec: deterministic, side-effect-free evaluation of an
expression tree against the memory writes.  The named unary functions
(SQRT/SIN/COS) are transcendental, hence not rational-valued; their
interpretation is a parameter `fns`, unused by rational-only expressions. -/
def resolveExpr (fns : String → Option (ℚ → ℚ)) (mem : MemoryWrites) :
    Expr → Except ResolveError ℚ
  | .lit v => .ok v
  | .ref region offset =>
    match lookupWrite mem region offset with
    | some v => .ok v
    | none => .error (.missingValue region offset)
  | .add a b => do pure ((← resolveExpr fns mem a) + (← resolveExpr fns mem b))
  | .sub a b => do pure ((← resolveExpr fns mem a) - (← resolveExpr fns mem b))
  | .mul a b => do pure ((← resolveExpr fns mem a) * (← resolveExpr fns mem b))
  | .fn name arg =>
    match fns name with
    | some f => do pure (f (← resolveExpr fns mem arg))
    | none => .error (.unsupportedFunction name)

/-- Modelled from the spec: a `RecalculationRule` — a target memory slot
(region name + offset) paired with an arithmetic expression tree. -/
structure RecalculationRule where
  targetRegion : String
  targetOffset : ℕ
  expression : Expr
  deriving DecidableEq, Repr

/-- Modelled from the spec: resolving one rule evaluates its expression
against the memory writes. -/
def resolveRule (fns : String → Option (ℚ → ℚ)) (mem : MemoryWrites)
    (rule : RecalculationRule) : Except ResolveError ℚ :=
  resolveExpr fns mem rule.expression

/-- Modelled from the spec: a table resolves rule by rule, in table order. -/
def resolveTable (fns : String → Option (ℚ → ℚ)) (mem : MemoryWrites)
    (rules : List RecalculationRule) : Except ResolveError (List ℚ) :=
  mapExcept (resolveRule fns mem) rules

/--
**C8.** For all numeric memory values `theta = t` and `beta = b` written
before resolution, resolving a rule whose expression is `3*theta` yields
exactly `3*t`, and resolving a rule whose expression is `theta+beta` yields
exactly `t+b` — for any interpretation of the unary functions.
-/
theorem resolve_linear_rules (fns : String → Option (ℚ → ℚ))
    (mem : MemoryWrites) (t b : ℚ)
    (ht : lookupWrite mem "theta" 0 = some t)
    (hb : lookupWrite mem "beta" 0 = some b) :
    resolveRule fns mem ⟨"__P0", 0, .mul (.lit 3) (.ref "theta" 0)⟩ = .ok (3 * t) ∧
    resolveRule fns mem ⟨"__P1", 0, .add (.ref "theta" 0) (.ref "beta" 0)⟩ =
      .ok (t + b) := by
  have hth : resolveExpr fns mem (.ref "theta" 0) = .ok t := by
    unfold resolveExpr
    rw [ht]
  have hbe : resolveExpr fns mem (.ref "beta" 0) = .ok b := by
    unfold resolveExpr
    rw [hb]
  constructor
  · show resolveExpr fns mem (.mul (.lit 3) (.ref "theta" 0)) = .ok (3 * t)
    unfold resolveExpr
    rw [hth]
    rfl
  · show resolveExpr fns mem (.add (.ref "theta" 0) (.ref "beta" 0)) = .ok (t + b)
    unfold resolveExpr
    rw [hth, hbe]
    rfl

/-- Witness for C8 with `theta = 2`, `beta = 5`. -/
theorem resolve_linear_rules_witness :
    resolveRule (fun _ => none) [(("theta", 0), 2), (("beta", 0), 5)]
      ⟨"__P0", 0, .mul (.lit 3) (.ref "theta" 0)⟩ = .ok (3 * 2 : ℚ) ∧
    resolveRule (fun _ => none) [(("theta", 0), 2), (("beta", 0), 5)]
      ⟨"__P1", 0, .add (.ref "theta" 0) (.ref "beta" 0)⟩ = .ok (2 + 5 : ℚ) :=
  resolve_linear_rules (fun _ => none) [(("theta", 0), 2), (("beta", 0), 5)]
    2 5 rfl rfl

/-! ### `pyquil/api/_compiler.py`: `_collect_classical_memory_write_locations` -/

/-- A program instruction, as far as memory-write collection is concerned:
`Declare` (name and memory size), `Measurement` (qubit index and optional
classical register given as region name + offset), or anything else. -/
inductive Instr where
  | declare (name : String) (memory_size : ℕ)
  | measurement (qubit : ℕ) (classical_reg : Option (String × ℕ))
  | other
  deriving DecidableEq, Repr

/-- `MemoryReference(name, offset)`. -/
structure MemoryReference where
  name : String
  offset : ℕ
  deriving DecidableEq, Repr

/-- The recorded source for one readout address: the `MemoryReference` and the
`f"q{q}"` source string. -/
abbrev RoSource : Type := MemoryReference × List Char

/-- The content of the `_log.warning` message emitted when a second
measurement overwrites the recorded source at an offset: the register offset,
the previous source and the new qubit. -/
structure OverwriteWarning where
  offset : ℕ
  previous : RoSource
  newQubit : ℕ
  deriving DecidableEq, Repr

/-- Python `dict` update on an insertion-ordered association list: replace the
value of the (unique) existing entry in place, else append. -/
def assocUpdate : List (ℕ × RoSource) → ℕ → RoSource → List (ℕ × RoSource)
  | [], k, v => [(k, v)]
  | kv :: rest, k, v =>
    if kv.1 = k then (k, v) :: rest else kv :: assocUpdate rest k v

/-- The first loop of `_collect_classical_memory_write_locations`: the size of
the (unique) `ro` declaration; `error` models the multiple-`ro` `ValueError`. -/
def findRoSize (program : List Instr) : Except String (Option ℕ) :=
  program.foldlM
    (fun ro_size instr =>
      match instr with
      | .declare name size =>
        if name = "ro" then
          if ro_size ≠ none then
            .error "I found multiple places where a register named ro is declared!"
          else .ok (some size)
        else .ok ro_size
      | _ => .ok ro_size)
    none

/-- The second loop, one instruction at a time: state is the `ro_sources` dict
and the warnings logged so far.  `error` models the
`assert instr.classical_reg.name == "ro"` failure. -/
def roSourcesStep (st : List (ℕ × RoSource) × List OverwriteWarning)
    (instr : Instr) :
    Except String (List (ℕ × RoSource) × List OverwriteWarning) :=
  match instr with
  | .measurement q creg =>
    -- `if instr.classical_reg:` — a `None` register is skipped
    match creg with
    | none => .ok st
    | some (name, offset) =>
      if name = "ro" then
        .ok (assocUpdate st.1 offset ({ name := "ro", offset := offset }, 'q' :: natDigits q),
          match List.lookup offset st.1 with
          | some prev => st.2 ++ [{ offset := offset, previous := prev, newQubit := q }]
          | none => st.2)
      else .error "AssertionError: instr.classical_reg.name == ro"
  | _ => .ok st

/-- The tail of `_collect_classical_memory_write_locations`:
`if ro_size: return [...] elif ro_sources: raise ... else: return []`
(`None` and `0` are falsy). -/
def finishCollect (ro_size : Option ℕ)
    (st : List (ℕ × RoSource) × List OverwriteWarning) :
    Except String (List OverwriteWarning × List (Option RoSource)) :=
  match ro_size with
  | some n =>
    if n ≠ 0 then
      .ok (st.2, (List.range n).map (fun i => List.lookup i st.1))
    else if st.1 ≠ [] then
      .error "Found MEASURE instructions, but no ro or ro_table region was declared."
    else .ok (st.2, [])
  | none =>
    if st.1 ≠ [] then
      .error "Found MEASURE instructions, but no ro or ro_table region was declared."
    else .ok (st.2, [])

/-- `_collect_classical_memory_write_locations`.  The Python function returns
only the address table and logs warnings; the model returns the logged
warnings alongside it. -/
def _collect_classical_memory_write_locations (program : List Instr) :
    Except String (List OverwriteWarning × List (Option RoSource)) := do
  let ro_size ← findRoSize program
  let st ← program.foldlM roSourcesStep ([], [])
  finishCollect ro_size st

theorem finishCollect_some_pos (n : ℕ)
    (st : List (ℕ × RoSource) × List OverwriteWarning) (hn : n ≠ 0) :
    finishCollect (some n) st =
      .ok (st.2, (List.range n).map (fun i => List.lookup i st.1)) := by
  unfold finishCollect
  simp [hn]

theorem finishCollect_falsy (ro_size : Option ℕ)
    (st : List (ℕ × RoSource) × List OverwriteWarning)
    (hro : ro_size = none ∨ ro_size = some 0) :
    finishCollect ro_size st =
      (if st.1 ≠ [] then
        .error "Found MEASURE instructions, but no ro or ro_table region was declared."
      else .ok (st.2, [])) := by
  rcases hro with rfl | rfl
  · rfl
  · unfold finishCollect
    simp

theorem lookup_assocUpdate (i k : ℕ) (v : RoSource) :
    ∀ (l : List (ℕ × RoSource)),
      List.lookup i (assocUpdate l k v) =
        if i = k then some v else List.lookup i l
  | [] => by
    by_cases h : i = k
    · subst h
      simp [assocUpdate, List.lookup]
    · have hbeq : (i == k) = false := beq_eq_false_iff_ne.mpr h
      simp [assocUpdate, List.lookup, hbeq, h]
  | kv :: rest => by
    by_cases hk : kv.1 = k
    · rw [show assocUpdate (kv :: rest) k v = (k, v) :: rest from by
        simp [assocUpdate, hk]]
      by_cases h : i = k
      · subst h
        simp [List.lookup]
      · have hbeq : (i == k) = false := beq_eq_false_iff_ne.mpr h
        have hbeq2 : (i == kv.1) = false := beq_eq_false_iff_ne.mpr (hk ▸ h)
        simp [List.lookup, hbeq, hbeq2, h]
    · rw [show assocUpdate (kv :: rest) k v = kv :: assocUpdate rest k v from by
        simp [assocUpdate, hk]]
      by_cases hikv : i = kv.1
      · have hbeq : (i == kv.1) = true := beq_iff_eq.mpr hikv
        have hik : i ≠ k := fun hc => hk (hikv ▸ hc ▸ rfl)
        simp [List.lookup, hbeq, hik]
      · have hbeq : (i == kv.1) = false := beq_eq_false_iff_ne.mpr hikv
        simp only [List.lookup, hbeq]
        rw [lookup_assocUpdate i k v rest]

theorem map_range_ite_set {α : Type} (f : ℕ → α) (v : α) :
    ∀ (n o : ℕ), o < n →
      (List.range n).map (fun i => if i = o then v else f i) =
        ((List.range n).map f).set o v
  | 0, o, ho => absurd ho (by omega)
  | n + 1, o, ho => by
    rw [List.range_succ, List.map_append, List.map_append]
    by_cases hon : o = n
    · subst hon
      have hfix : (List.range o).map (fun i => if i = o then v else f i) =
          (List.range o).map f := by
        apply List.map_congr_left
        intro i hi
        rw [List.mem_range] at hi
        simp [Nat.ne_of_lt hi]
      rw [hfix]
      have hlen : ((List.range o).map f).length = o := by simp
      rw [List.set_append_right _ _ (le_of_eq hlen)]
      simp [hlen]
    · have ho' : o < n := by omega
      rw [map_range_ite_set f v n o ho']
      have hlen : ((List.range n).map f).length = n := by simp
      rw [List.set_append_left _ _ (by rw [hlen]; exact ho')]
      have hne : n ≠ o := fun hc => hon hc.symm
      simp [hne]

/--
**C9.** Appending to a program a second `MEASURE` targeting an offset of the
`ro` region that already has a recorded source: collection still succeeds (no
error is raised), the warning log grows by exactly one overwrite warning
recording the previous source and the new qubit, the recorded source at that
offset becomes the second measurement's source, and the rest of the table is
unchanged (only the overwritten offset differs).
-/
theorem collect_overwrites_second_measure_and_warns
    (p : List Instr) (ws : List OverwriteWarning) (tbl : List (Option RoSource))
    (q2 o : ℕ) (src1 : RoSource)
    (h : _collect_classical_memory_write_locations p = .ok (ws, tbl))
    (hsrc : tbl.get? o = some (some src1)) :
    _collect_classical_memory_write_locations
        (p ++ [.measurement q2 (some ("ro", o))]) =
      .ok (ws ++ [{ offset := o, previous := src1, newQubit := q2 }],
        tbl.set o (some ({ name := "ro", offset := o }, 'q' :: natDigits q2))) := by
  unfold _collect_classical_memory_write_locations at h ⊢
  cases hsz : findRoSize p with
  | error e => rw [hsz] at h; exact Except.noConfusion h
  | ok ro_size =>
    rw [hsz] at h
    simp only [bind_ok_eq] at h
    cases hfold : p.foldlM roSourcesStep ([], []) with
    | error e => rw [hfold] at h; exact Except.noConfusion h
    | ok st =>
      rw [hfold] at h
      simp only [bind_ok_eq] at h
      have hsz' : findRoSize (p ++ [.measurement q2 (some ("ro", o))]) =
          .ok ro_size := by
        unfold findRoSize at hsz ⊢
        rw [List.foldlM_append, hsz]
        rfl
      rw [hsz']
      simp only [bind_ok_eq]
      by_cases hfalsy : ro_size = none ∨ ro_size = some 0
      · rw [finishCollect_falsy ro_size st hfalsy] at h
        by_cases hne : st.1 ≠ []
        · rw [if_pos hne] at h
          exact Except.noConfusion h
        · rw [if_neg hne] at h
          cases h
          simp at hsrc
      · obtain ⟨n, rfl, hn⟩ : ∃ n, ro_size = some n ∧ n ≠ 0 := by
          cases ro_size with
          | none => exact absurd (Or.inl rfl) hfalsy
          | some m =>
            refine ⟨m, rfl, ?_⟩
            intro hc
            exact hfalsy (Or.inr (by rw [hc]))
        rw [finishCollect_some_pos n st hn] at h
        cases h
        -- recover the source recorded at offset `o` in the state
        have holt : o < n := by
          by_contra hge
          have hnone : ((List.range n).map fun i => List.lookup i st.1).get? o
              = none := by
            apply List.get?_eq_none.mpr
            simp
            omega
          rw [hnone] at hsrc
          cases hsrc
        have hlookup : List.lookup o st.1 = some src1 := by
          have hmapped : ((List.range n).map fun i => List.lookup i st.1).get? o
              = some (List.lookup o st.1) := by
            rw [List.get?_map, List.get?_range holt]
            rfl
          rw [hmapped] at hsrc
          exact Option.some.inj hsrc
        -- the appended measurement's step
        have hstep1 : roSourcesStep st (.measurement q2 (some ("ro", o))) =
            Except.ok (assocUpdate st.1 o
                  ({ name := "ro", offset := o }, 'q' :: natDigits q2),
              (match List.lookup o st.1 with
               | some prev =>
                 st.2 ++ [{ offset := o, previous := prev, newQubit := q2 }]
               | none => st.2 : List OverwriteWarning)) := rfl
        rw [hlookup] at hstep1
        have hfold' : (p ++ [Instr.measurement q2 (some ("ro", o))]).foldlM
            roSourcesStep (([], []) : List (ℕ × RoSource) × List OverwriteWarning) =
            Except.ok (assocUpdate st.1 o
                  ({ name := "ro", offset := o }, 'q' :: natDigits q2),
              st.2 ++ [{ offset := o, previous := src1, newQubit := q2 }]) := by
          rw [List.foldlM_append, hfold]
          simp only [bind_ok_eq, List.foldlM_cons, List.foldlM_nil, hstep1]
          rfl
        rw [hfold']
        simp only [bind_ok_eq]
        rw [finishCollect_some_pos n _ hn]
        congr 1
        have hpointwise :
            ((List.range n).map fun i => List.lookup i
              (assocUpdate st.1 o
                ({ name := "ro", offset := o }, 'q' :: natDigits q2))) =
            (List.range n).map fun i =>
              if i = o
              then some ({ name := "ro", offset := o }, 'q' :: natDigits q2)
              else List.lookup i st.1 := by
          apply List.map_congr_left
          intro i _
          exact lookup_assocUpdate i o _ st.1
        rw [hpointwise, map_range_ite_set _ _ n o holt]

/-- Witness for C9: a program measuring qubits 0 and 1 into `ro[0]` and
`ro[1]`, then appending a measurement of qubit 5 into `ro[0]`. -/
theorem collect_overwrites_second_measure_and_warns_witness :
    _collect_classical_memory_write_locations
        ([.declare "ro" 2, .measurement 0 (some ("ro", 0)),
          .measurement 1 (some ("ro", 1))] ++ [.measurement 5 (some ("ro", 0))]) =
      .ok (([] : List OverwriteWarning) ++
          [{ offset := 0, previous := ({ name := "ro", offset := 0 }, ['q', '0']),
             newQubit := 5 }],
        ([some ({ name := "ro", offset := 0 }, ['q', '0']),
          some ({ name := "ro", offset := 1 }, ['q', '1'])].set 0
          (some ({ name := "ro", offset := 0 }, 'q' :: natDigits 5)))) :=
  collect_overwrites_second_measure_and_warns
    [.declare "ro" 2, .measurement 0 (some ("ro", 0)),
     .measurement 1 (some ("ro", 1))]
    [] _ 5 0 ({ name := "ro", offset := 0 }, ['q', '0']) rfl rfl

/-! ### Round-trip structure of the edge map (C1) -/

theorem edge_ids_from_id_make_edge_id (a b : ℕ) :
    edge_ids_from_id (make_edge_id a b) = some [min a b, max a b] := by
  unfold edge_ids_from_id
  rw [splitOnDash_make_edge_id a b]
  simp [mapOrFail, parseNat_natDigits]

theorem make_edge_id_inj_sorted {a b a' b' : ℕ}
    (h : make_edge_id a b = make_edge_id a' b') :
    sortedPair a b = sortedPair a' b' := by
  have h1 := edge_ids_from_id_make_edge_id a b
  rw [h, edge_ids_from_id_make_edge_id a' b'] at h1
  exact (Option.some.inj h1).symm

theorem lookup_isSome_exists {β : Type} (k : List Char)
    (l : List (List Char × β)) (h : (List.lookup k l).isSome) :
    ∃ kv ∈ l, kv.1 = k := by
  by_contra h2
  push_neg at h2
  rw [(lookup_none_iff k l).mpr h2] at h
  cases h

/-- The edge map seen as (key, member-ids) pairs. -/
def edgeIdPairs (d : CompilerISA) : List (List Char × List ℕ) :=
  d.edges.map fun kv => (kv.1, kv.2.ids)

theorem edgeIdPairs_setEdgeGates (d : CompilerISA) (key : List Char)
    (eg : List GateInfo) :
    edgeIdPairs (setEdgeGates d key eg) = edgeIdPairs d := by
  unfold edgeIdPairs setEdgeGates
  rw [List.map_map]
  apply List.map_congr_left
  intro kv _
  by_cases h : kv.1 = key <;> simp [h]

theorem step_edgeIdPairs (eg : List GateInfo) (d : CompilerISA) (p : ℕ × ℕ) :
    edgeIdPairs (fromGraphEdgeStep eg d p) =
      if (List.lookup (make_edge_id p.1 p.2) d.edges).isSome
      then edgeIdPairs d
      else edgeIdPairs d ++ [(make_edge_id p.1 p.2, sortedPair p.1 p.2)] := by
  unfold fromGraphEdgeStep add_edge
  by_cases hlk : (List.lookup (make_edge_id p.1 p.2) d.edges).isSome
  · rw [if_pos hlk, if_pos hlk, edgeIdPairs_setEdgeGates]
  · rw [if_neg hlk, if_neg hlk, edgeIdPairs_setEdgeGates]
    unfold edgeIdPairs
    rw [List.map_append]
    rfl

/-- Folding the edge loop over a list of graph edges: existing (key, ids)
pairs persist unchanged, each added pair is the canonical record of a listed
edge, and every listed edge has a record with its sorted id pair. -/
theorem edge_fold_pairs (eg : List GateInfo) :
    ∀ (E : List (ℕ × ℕ)) (d : CompilerISA),
      (∀ kv ∈ edgeIdPairs d, ∃ a b, kv.1 = make_edge_id a b ∧
        kv.2 = sortedPair a b) →
      ∃ added,
        edgeIdPairs (E.foldl (fromGraphEdgeStep eg) d) = edgeIdPairs d ++ added ∧
        (∀ kv ∈ added, ∃ p ∈ E, kv = (make_edge_id p.1 p.2, sortedPair p.1 p.2)) ∧
        (∀ p ∈ E, ∃ kv ∈ edgeIdPairs d ++ added, kv.2 = sortedPair p.1 p.2)
  | [], d, _ => ⟨[], by simp, by simp, by simp⟩
  | p :: E, d, hinv => by
    simp only [List.foldl_cons]
    by_cases hlk : (List.lookup (make_edge_id p.1 p.2) d.edges).isSome
    · have hstep : edgeIdPairs (fromGraphEdgeStep eg d p) = edgeIdPairs d := by
        rw [step_edgeIdPairs, if_pos hlk]
      have hpresent : ∃ kv ∈ edgeIdPairs d, kv.2 = sortedPair p.1 p.2 := by
        obtain ⟨kv, hkv, hkey⟩ := lookup_isSome_exists _ _ hlk
        refine ⟨(kv.1, kv.2.ids), List.mem_map_of_mem _ hkv, ?_⟩
        obtain ⟨a, b, hk, hids⟩ := hinv (kv.1, kv.2.ids)
          (List.mem_map_of_mem _ hkv)
        have : sortedPair a b = sortedPair p.1 p.2 :=
          make_edge_id_inj_sorted (by rw [← hk, hkey])
        simpa [this] using hids
      obtain ⟨added, hfold, hadd, hcomplete⟩ :=
        edge_fold_pairs eg E (fromGraphEdgeStep eg d p) (by rw [hstep]; exact hinv)
      refine ⟨added, by rw [hfold, hstep], ?_, ?_⟩
      · intro kv hkv
        obtain ⟨q, hq, hkvq⟩ := hadd kv hkv
        exact ⟨q, List.mem_cons_of_mem p hq, hkvq⟩
      · intro q hq
        rcases List.mem_cons.mp hq with rfl | hq
        · obtain ⟨kv, hkv, hkv2⟩ := hpresent
          exact ⟨kv, List.mem_append_left _ hkv, hkv2⟩
        · obtain ⟨kv, hkv, hkv2⟩ := hcomplete q hq
          rw [hstep] at hkv
          exact ⟨kv, hkv, hkv2⟩
    · have hstep : edgeIdPairs (fromGraphEdgeStep eg d p) =
          edgeIdPairs d ++ [(make_edge_id p.1 p.2, sortedPair p.1 p.2)] := by
        rw [step_edgeIdPairs, if_neg hlk]
      have hinv' : ∀ kv ∈ edgeIdPairs (fromGraphEdgeStep eg d p),
          ∃ a b, kv.1 = make_edge_id a b ∧ kv.2 = sortedPair a b := by
        intro kv hkv
        rw [hstep] at hkv
        rcases List.mem_append.mp hkv with hkv | hkv
        · exact hinv kv hkv
        · simp only [List.mem_singleton] at hkv
          exact ⟨p.1, p.2, by rw [hkv], by rw [hkv]⟩
      obtain ⟨added, hfold, hadd, hcomplete⟩ :=
        edge_fold_pairs eg E (fromGraphEdgeStep eg d p) hinv'
      refine ⟨(make_edge_id p.1 p.2, sortedPair p.1 p.2) :: added, ?_, ?_, ?_⟩
      · rw [hfold, hstep, List.append_assoc]
        rfl
      · intro kv hkv
        rcases List.mem_cons.mp hkv with rfl | hkv
        · exact ⟨p, List.mem_cons_self p E, rfl⟩
        · obtain ⟨q, hq, hkvq⟩ := hadd kv hkv
          exact ⟨q, List.mem_cons_of_mem p hq, hkvq⟩
      · intro q hq
        rcases List.mem_cons.mp hq with rfl | hq
        · exact ⟨(make_edge_id q.1 q.2, sortedPair q.1 q.2),
            List.mem_append_right _ (List.mem_cons_self _ _), rfl⟩
        · obtain ⟨kv, hkv, hkv2⟩ := hcomplete q hq
          rw [hstep, List.append_assoc] at hkv
          refine ⟨kv, ?_, hkv2⟩
          rcases List.mem_append.mp hkv with hkv | hkv
          · exact List.mem_append_left _ hkv
          · exact List.mem_append_right _ hkv

theorem sym2_sortedPair (a b : ℕ) : s(min a b, max a b) = s(a, b) := by
  rcases le_total a b with h | h
  · rw [min_eq_left h, max_eq_right h]
  · rw [min_eq_right h, max_eq_left h]
    exact Sym2.eq_swap

theorem endpoint_iff_sorted (a b x : ℕ) :
    (x = a ∨ x = b) ↔ (x = min a b ∨ x = max a b) := by
  rcases le_total a b with h | h
  · rw [min_eq_left h, max_eq_right h]
  · rw [min_eq_right h, max_eq_left h]
    tauto

theorem mem_nxFromEdgelist_nodes (x : ℕ) :
    ∀ (pairs : List (ℕ × ℕ)),
      x ∈ (nxFromEdgelist pairs).nodes ↔ ∃ p ∈ pairs, x = p.1 ∨ x = p.2
  | [] => by simp [nxFromEdgelist]
  | p :: ps => by
    have hrec : (nxFromEdgelist (p :: ps)).nodes =
        p.1 :: p.2 :: (nxFromEdgelist ps).nodes := rfl
    rw [hrec]
    simp only [List.mem_cons]
    rw [mem_nxFromEdgelist_nodes x ps]
    constructor
    · rintro (rfl | rfl | ⟨q, hq, hx⟩)
      · exact ⟨p, Or.inl rfl, Or.inl rfl⟩
      · exact ⟨p, Or.inl rfl, Or.inr rfl⟩
      · exact ⟨q, Or.inr hq, hx⟩
    · rintro ⟨q, hq, hx⟩
      rcases hq with rfl | hq
      · rcases hx with rfl | rfl
        · exact Or.inl rfl
        · exact Or.inr (Or.inl rfl)
      · exact Or.inr (Or.inr ⟨q, hq, hx⟩)

theorem mapExcept_ok_of_forall {ε α β : Type} (f : α → Except ε β) (g : α → β) :
    ∀ (l : List α), (∀ x ∈ l, f x = .ok (g x)) → mapExcept f l = .ok (l.map g)
  | [], _ => rfl
  | x :: xs, h => by
    have hx : f x = .ok (g x) := h x (List.mem_cons_self x xs)
    have hxs : mapExcept f xs = .ok (xs.map g) :=
      mapExcept_ok_of_forall f g xs (fun y hy => h y (List.mem_cons_of_mem x hy))
    show (do
        let y ← f x
        let ys ← mapExcept f xs
        pure (y :: ys)) = _
    rw [hx]
    simp only [bind_ok_eq]
    rw [hxs]
    simp only [bind_ok_eq]
    rfl

/-- The edge map of a successful `compiler_isa_from_graph` run: each entry is
the canonical record of some graph edge, and every graph edge has a record
with its sorted id pair. -/
theorem compiler_isa_from_graph_edge_pairs (g : NxGraph)
    (g1 g2 : Option (List String)) (isa : CompilerISA)
    (h : compiler_isa_from_graph g g1 g2 = .ok isa) :
    (∀ kv ∈ edgeIdPairs isa, ∃ p ∈ g.edges,
      kv = (make_edge_id p.1 p.2, sortedPair p.1 p.2)) ∧
    (∀ p ∈ g.edges, ∃ kv ∈ edgeIdPairs isa, kv.2 = sortedPair p.1 p.2) := by
  unfold compiler_isa_from_graph at h
  cases hqg : ((effectiveGates1q g1).foldlM
      (fun (acc : List ISAGate) gate => do
        pure (acc ++ (← GraphDevice._transform_qubit_operation_to_gates gate))) []) with
  | error e => rw [hqg] at h; exact Except.noConfusion h
  | ok qubit_gates =>
    rw [hqg] at h
    simp only [bind_ok_eq] at h
    by_cases hnil : g.nodes = []
    · rw [if_pos hnil] at h
      exact Except.noConfusion h
    · rw [if_neg hnil] at h
      cases heg : ((effectiveGates2q g2).foldlM
          (fun (acc : List GateInfo) gate => do
            pure (acc ++ (← GraphDevice._transform_edge_operation_to_gates gate))) []) with
      | error e => rw [heg] at h; exact Except.noConfusion h
      | ok edge_gates =>
        rw [heg] at h
        simp only [bind_ok_eq, pure_eq_ok] at h
        cases h
        have hbase : edgeIdPairs ((List.range (maxNode g + 1)).foldl
            (fromGraphQubitStep g.nodes qubit_gates) {}) = [] := by
          unfold edgeIdPairs
          rw [(qubit_fold_spec g.nodes qubit_gates
            (List.range (maxNode g + 1)) {} (List.nodup_range _)
            (fun i _ => rfl)).2]
          rfl
        obtain ⟨added, hfold, hadd, hcomplete⟩ :=
          edge_fold_pairs edge_gates g.edges
            ((List.range (maxNode g + 1)).foldl
              (fromGraphQubitStep g.nodes qubit_gates) {})
            (by rw [hbase]; intro kv hkv; cases hkv)
        rw [hbase] at hfold hcomplete
        simp only [List.nil_append] at hfold hcomplete
        constructor
        · intro kv hkv
          rw [hfold] at hkv
          exact hadd kv hkv
        · intro p hp
          obtain ⟨kv, hkv, hkv2⟩ := hcomplete p hp
          exact ⟨kv, hfold ▸ hkv, hkv2⟩

/--
**C1 counterexample.** For the graph with the single node 0 and no edges,
`compiler_isa_from_graph` succeeds, but converting the resulting ISA back
yields the empty graph (conversion rebuilds the graph from the ISA's edges
only), which is not isomorphic to the one-node input graph.
-/
theorem roundtrip_drops_isolated_node :
    ((compiler_isa_from_graph ⟨[0], []⟩ none none).bind compiler_isa_to_graph) =
      .ok ⟨[], []⟩ ∧
    ¬ NxIso ⟨[], []⟩ ⟨[0], []⟩ := by
  refine ⟨rfl, ?_⟩
  rintro ⟨f, hbij, -⟩
  have h0 : (0 : ℕ) ∈ (nodeFinset ⟨[0], []⟩ : Finset ℕ) := by
    simp [nodeFinset]
  obtain ⟨x, hx, -⟩ := hbij.surjOn h0
  simp [nodeFinset] at hx

/--
**C1 (amended).** For every graph `g` whose edges' endpoints lie among its
nodes and in which every node is the endpoint of some edge (no isolated
nodes), a successful `compiler_isa_from_graph` run followed by
`compiler_isa_to_graph` succeeds and yields a graph isomorphic to `g`.
Isolated nodes are lost, as the counterexample shows, because the conversion
back rebuilds the graph from the ISA's edges only.
-/
theorem graph_isa_roundtrip (g : NxGraph) (g1 g2 : Option (List String))
    (isa : CompilerISA)
    (hok : compiler_isa_from_graph g g1 g2 = .ok isa)
    (hend : ∀ p ∈ g.edges, p.1 ∈ g.nodes ∧ p.2 ∈ g.nodes)
    (hcov : ∀ x ∈ g.nodes, ∃ p ∈ g.edges, x = p.1 ∨ x = p.2) :
    compiler_isa_to_graph isa =
      .ok (nxFromEdgelist (isa.edges.map fun kv =>
        (kv.2.ids.getD 0 0, kv.2.ids.getD 1 0))) ∧
    NxIso (nxFromEdgelist (isa.edges.map fun kv =>
        (kv.2.ids.getD 0 0, kv.2.ids.getD 1 0))) g := by
  obtain ⟨hA, hB⟩ := compiler_isa_from_graph_edge_pairs g g1 g2 isa hok
  have hA' : ∀ kv ∈ isa.edges, ∃ p ∈ g.edges, kv.2.ids = sortedPair p.1 p.2 := by
    intro kv hkv
    obtain ⟨p, hp, heq⟩ := hA (kv.1, kv.2.ids)
      (List.mem_map_of_mem _ hkv)
    exact ⟨p, hp, congrArg Prod.snd heq⟩
  have hmap : mapExcept (fun kv => edgePairOfIds kv.2.ids) isa.edges =
      .ok (isa.edges.map fun kv => (kv.2.ids.getD 0 0, kv.2.ids.getD 1 0)) := by
    apply mapExcept_ok_of_forall
    intro kv hkv
    obtain ⟨p, -, hids⟩ := hA' kv hkv
    rw [hids]
    rfl
  constructor
  · unfold compiler_isa_to_graph
    rw [hmap]
    rfl
  · apply nxIso_of_eq
    · -- node sets agree
      apply Finset.ext
      intro x
      simp only [nodeFinset, List.mem_toFinset]
      rw [mem_nxFromEdgelist_nodes]
      constructor
      · rintro ⟨q, hq, hx⟩
        obtain ⟨kv, hkv, rfl⟩ := List.mem_map.mp hq
        obtain ⟨p, hp, hids⟩ := hA' kv hkv
        rw [hids] at hx
        have hx' : x = p.1 ∨ x = p.2 := by
          rw [endpoint_iff_sorted]
          exact hx
        rcases hx' with rfl | rfl
        · exact (hend p hp).1
        · exact (hend p hp).2
      · intro hx
        obtain ⟨p, hp, hxp⟩ := hcov x hx
        obtain ⟨kv, hkv, hkv2⟩ := hB p hp
        obtain ⟨kv0, hkv0, rfl⟩ := List.mem_map.mp hkv
        refine ⟨(kv0.2.ids.getD 0 0, kv0.2.ids.getD 1 0),
          List.mem_map_of_mem _ hkv0, ?_⟩
        have hids : kv0.2.ids = sortedPair p.1 p.2 := hkv2
        rw [hids]
        rw [show ((sortedPair p.1 p.2).getD 0 0, (sortedPair p.1 p.2).getD 1 0) =
          (min p.1 p.2, max p.1 p.2) from rfl]
        exact (endpoint_iff_sorted p.1 p.2 x).mp hxp
    · -- edge sets agree
      apply Finset.ext
      intro s
      simp only [adjFinset, List.mem_toFinset, List.mem_map]
      constructor
      · rintro ⟨q, hq, rfl⟩
        obtain ⟨kv, hkv, rfl⟩ := List.mem_map.mp hq
        obtain ⟨p, hp, hids⟩ := hA' kv hkv
        refine ⟨p, hp, ?_⟩
        rw [hids]
        rw [show ((sortedPair p.1 p.2).getD 0 0, (sortedPair p.1 p.2).getD 1 0) =
          (min p.1 p.2, max p.1 p.2) from rfl]
        exact (sym2_sortedPair p.1 p.2).symm
      · rintro ⟨p, hp, rfl⟩
        obtain ⟨kv, hkv, hkv2⟩ := hB p hp
        obtain ⟨kv0, hkv0, rfl⟩ := List.mem_map.mp hkv
        refine ⟨(kv0.2.ids.getD 0 0, kv0.2.ids.getD 1 0),
          List.mem_map_of_mem _ hkv0, ?_⟩
        have hids : kv0.2.ids = sortedPair p.1 p.2 := hkv2
        rw [hids]
        rw [show ((sortedPair p.1 p.2).getD 0 0, (sortedPair p.1 p.2).getD 1 0) =
          (min p.1 p.2, max p.1 p.2) from rfl]
        exact sym2_sortedPair p.1 p.2

/-- Witness for C1 (amended) on the path graph `0 - 1`. -/
theorem graph_isa_roundtrip_witness :
    NxIso (nxFromEdgelist
      ((((compiler_isa_from_graph ⟨[0, 1], [(0, 1)]⟩ none none).toOption.getD
        {}).edges.map fun kv => (kv.2.ids.getD 0 0, kv.2.ids.getD 1 0))))
      ⟨[0, 1], [(0, 1)]⟩ :=
  (graph_isa_roundtrip ⟨[0, 1], [(0, 1)]⟩ none none _ rfl
    (by decide) (by decide)).2

end PyQuilSpec
